import Mathlib

/-!
# Building Systems Graph editor: verified model

A shallow embedding of the Dash/Cytoscape graph editor in `app.py`.

Elements of the Cytoscape store are Python dictionaries; they are modeled
here as a record `Elem` with a `data` record of optional fields (a missing
dictionary key is `none`), a `classes` string (the code only ever reads
`classes` through `.get("classes", "")`, so a missing key is identified
with `""`), and an optional position.  Element ids are always present on
elements the application constructs, so `id` is a plain string.  Pixel
coordinates are modeled as integers; no claim depends on fractional
positions.  Python exceptions (`KeyError` from `TYPE_MAP[...]` lookups)
are modeled by `Option`-valued functions returning `none`; time stamps are
integers (milliseconds), supplied as explicit arguments in place of
`time.time()`, and fresh `uuid` node ids are explicit arguments as well.
-/

namespace BSG

/-- A node type entry, as in the `NodeType` dataclass. -/
structure NodeType where
  key : String
  label : String
  color : String
deriving DecidableEq

/-- The static `NODE_TYPES` table. -/
def NODE_TYPES : List NodeType :=
  [⟨"building", "Building", "#38bdf8"⟩,
   ⟨"hot-water", "Hot Water Loop", "#f97316"⟩,
   ⟨"cold-water", "Cold Water Loop", "#60a5fa"⟩,
   ⟨"heating-curve", "Heating Curve", "#facc15"⟩,
   ⟨"sensors", "Sensors", "#a855f7"⟩,
   ⟨"ahu", "Air Handling Units", "#22c55e"⟩,
   ⟨"zone", "Zones", "#f472b6"⟩]

/-- Model of `TYPE_MAP[k]`, as a partial lookup: `none` models Python's `KeyError`. -/
def typeMap (k : String) : Option NodeType :=
  NODE_TYPES.find? (fun t => decide (t.key = k))

/-- The `sensors` entry (used by the node-creation paths with a literal key). -/
def sensorsT : NodeType := ⟨"sensors", "Sensors", "#a855f7"⟩

/-- The `building` entry (used by `initial_elements`). -/
def buildingT : NodeType := ⟨"building", "Building", "#38bdf8"⟩

/-- The `data` dictionary of an element.  `id` is always present on elements
the application builds; every other key may be absent (`none`). -/
structure ElemData where
  id : String
  label : Option String
  customLabel : Option String
  type : Option String
  typeLabel : Option String
  color : Option String
  parent : Option String
  source : Option String
  target : Option String
deriving DecidableEq

/-- A data record with every optional key absent. -/
def blankData : ElemData :=
  ⟨"", none, none, none, none, none, none, none, none⟩

/-- A Cytoscape element: a `data` record, a `classes` string and an optional
position. -/
structure Elem where
  data : ElemData
  classes : String
  position : Option (Int × Int)
deriving DecidableEq

/-- Python truthiness of an optional string: `None` and `""` are falsy. -/
def pyTruthy : Option String → Bool
  | some s => decide (s ≠ "")
  | none => false

/-- Python's `a if a else b`, then discarding a falsy result (mirrors
`target_node = right_click_node if right_click_node else selected` followed
by `if not target_node`). -/
def pyOr (a b : Option String) : Option String :=
  if pyTruthy a then a else if pyTruthy b then b else none

/-- Mirrors `if parent:` — a falsy (empty) parent string is not stored. -/
def pyOptStr : Option String → Option String
  | some s => if s = "" then none else some s
  | none => none

/-- Python's `str(x)` on an optional string, as used by an f-string. -/
def pyStr : Option String → String
  | some s => s
  | none => "None"

/-- Model of `make_node`, taking the already-looked-up `NodeType` (the application
calls it with the literal keys `"sensors"` and `"building"` only). -/
def makeNodeT (nodeId label : String) (nt : NodeType) (parent : Option String)
    (position : Option (Int × Int)) : Elem :=
  { data := { id := nodeId,
              label := some (label ++ "\n" ++ nt.label),
              customLabel := some label,
              type := some nt.key,
              typeLabel := some nt.label,
              color := some nt.color,
              parent := pyOptStr parent,
              source := none,
              target := none },
    classes := nt.key,
    position := position }

/-- Model of `make_edge`: the `source` field stores the raw selection value (Python
would store `None` there for a dangling selection, while the id is built
with the f-string rendering of that value). -/
def make_edgeO (source : Option String) (target : String) : Elem :=
  { data := { blankData with
              id := "edge-" ++ pyStr source ++ "-" ++ target,
              source := source,
              target := some target },
    classes := "",
    position := none }

/-- Model of `initial_elements()`: a single building node. -/
def initial_elements : List Elem :=
  [makeNodeT "node-root" "Building" buildingT none none]

/-! ## Hierarchy index and visibility engine -/

/-- Append a child under a parent key, preserving insertion order
(`children_map.setdefault(parent, []).append(id)`). -/
def addChild (cmap : List (String × List String)) (p c : String) :
    List (String × List String) :=
  match cmap with
  | [] => [(p, [c])]
  | (k, v) :: rest =>
    if k = p then (k, v ++ [c]) :: rest else (k, v) :: addChild rest p c

/-- Model of `build_children_map`. -/
def buildChildrenMap (elements : List Elem) : List (String × List String) :=
  elements.foldl
    (fun m e =>
      match e.data.parent with
      | some p => addChild m p e.data.id
      | none => m)
    []

/-- Model of `children_map.get(k, [])`. -/
def lookupChildren (cmap : List (String × List String)) (k : String) :
    List String :=
  match cmap.find? (fun kv => decide (kv.1 = k)) with
  | some kv => kv.2
  | none => []

/-- One-step child relation of a children index. -/
def childRel (cmap : List (String × List String)) (a b : String) : Prop :=
  b ∈ lookupChildren cmap a

/-- Proper (transitive) descendant relation of a children index. -/
def Descend (cmap : List (String × List String)) (a b : String) : Prop :=
  Relation.TransGen (childRel cmap) a b

/-- The `while queue:` loop of `collect_descendants`, with explicit fuel:
one unit of fuel per iteration, `none` when the fuel runs out with a
non-empty queue.  The source has no visited set; the queue is extended
with the children of every popped node unconditionally. -/
def collectLoop (cmap : List (String × List String)) :
    Nat → List String → List String → Option (List String)
  | _, [], hidden => some hidden
  | 0, _ :: _, _ => none
  | fuel + 1, c :: rest, hidden =>
    collectLoop cmap fuel (rest ++ lookupChildren cmap c) (List.insert c hidden)

/-- Model of `collect_descendants(root_id, children_map)`, fuel-based. -/
def collectDescendantsF (fuel : Nat) (cmap : List (String × List String))
    (rootId : String) : Option (List String) :=
  collectLoop cmap fuel (lookupChildren cmap rootId) []

/-- The `for collapsed_id in collapsed: hidden.update(...)` accumulation of
`apply_visibility`. -/
def hiddenNodesF (fuel : Nat) (cmap : List (String × List String)) :
    List String → List String → Option (List String)
  | [], acc => some acc
  | c :: rest, acc =>
    match collectDescendantsF fuel cmap c with
    | none => none
    | some h => hiddenNodesF fuel cmap rest (acc ++ h)

/-- Python whitespace characters (the ones `str.strip()` removes that can
occur here). -/
def isPyWs (c : Char) : Bool :=
  decide (c = ' ') || decide (c = '\t') || decide (c = '\n') || decide (c = '\r')

/-- Python's `str.strip()`. -/
def pyStrip (s : String) : String :=
  ⟨((s.data.dropWhile isPyWs).reverse.dropWhile isPyWs).reverse⟩

/-- The per-element hidden test of `apply_visibility`: an element with both
`source` and `target` is an edge and is hidden when either endpoint is
hidden; anything else is hidden when its own id is. -/
def elemHidden (hidden : List String) (e : Elem) : Bool :=
  match e.data.source, e.data.target with
  | some s, some t => decide (s ∈ hidden) || decide (t ∈ hidden)
  | _, _ => decide (e.data.id ∈ hidden)

/-- The class rewrite `apply_visibility` performs on one element. -/
def annotateEl (hidden : List String) (e : Elem) : Elem :=
  if elemHidden hidden e then
    { e with classes := pyStrip ("hidden " ++ e.classes) }
  else
    { e with classes := e.classes }

/-- Model of `apply_visibility(elements, collapsed)`, fuel-based. -/
def applyVisibilityF (fuel : Nat) (elements : List Elem)
    (collapsed : List String) : Option (List Elem) :=
  match hiddenNodesF fuel (buildChildrenMap elements) collapsed [] with
  | none => none
  | some hidden => some (elements.map (annotateEl hidden))

/-! ## Interaction callbacks -/

/-- The `last-tap` store: last tapped node id (possibly `None`) and a
millisecond timestamp. -/
structure LastTap where
  node : Option String
  timestamp : Int
deriving DecidableEq

/-- Model of `handle_node_tap`.  The current wall-clock time and the freshly drawn
uuid-based node id are explicit arguments.  Returns the three outputs:
the element store, the selection store and the last-tap store. -/
def handle_node_tap (tapData : Option ElemData) (tapPos : Option (Int × Int))
    (elements : List Elem) (selected : Option String) (lastTap : LastTap)
    (now : Int) (freshId : String) :
    List Elem × Option String × LastTap :=
  match tapData with
  | none => (elements, selected, lastTap)
  | some d =>
    if lastTap.node = some d.id ∧ now - lastTap.timestamp < 650 then
      let pos := tapPos.map (fun p => (p.1 + 60, p.2 + 40))
      (elements ++ [makeNodeT freshId "New Node" sensorsT (some d.id) pos],
       some freshId,
       { node := some freshId, timestamp := 0 })
    else
      (elements, some d.id, { node := some d.id, timestamp := now })

/-- The `(source, target)` pairs of `existing_edges`: elements whose
`source` key holds a truthy value (a falsy source skips the element;
an element with a truthy source and no target would raise in Python and
is skipped here, see the well-formedness hypotheses where this matters). -/
def edgePairs (elements : List Elem) : List (String × String) :=
  elements.filterMap fun e =>
    match e.data.source, e.data.target with
    | some s, some t => if s = "" then none else some (s, t)
    | _, _ => none

/-- Test `(selected, target_id) in existing_edges or (target_id, selected) in
existing_edges` (a `None` selection matches no string pair). -/
def pairConn (elements : List Elem) (selected : Option String)
    (targetId : String) : Bool :=
  match selected with
  | some s =>
    decide ((s, targetId) ∈ edgePairs elements)
      || decide ((targetId, s) ∈ edgePairs elements)
  | none => false

/-- Model of `connect_nodes`. -/
def connect_nodes (connectOn : Bool) (tapData : Option ElemData)
    (elements : List Elem) (selected : Option String) : List Elem :=
  match tapData, connectOn with
  | some d, true =>
    if d.id = "" then elements
    else if some d.id = selected then elements
    else if pairConn elements selected d.id then elements
    else elements ++ [make_edgeO selected d.id]
  | _, _ => elements

/-- Model of `handle_canvas_double_click`, with the fresh node id explicit. -/
def handle_canvas_double_click (canvasClick : Option (Int × Int))
    (elements : List Elem) (freshId : String) : List Elem :=
  match canvasClick with
  | none => elements
  | some p => elements ++ [makeNodeT freshId "New Node" sensorsT none (some p)]

/-- The `save-label` branch of `handle_label_edit` (the cancel branch and a
missing trigger return the store unchanged). -/
def relabelEl (newLabel : String) (e : Elem) : Elem :=
  { e with data :=
      { e.data with
        label := some (newLabel ++ "\n" ++ (e.data.typeLabel.getD "")),
        customLabel := some newLabel } }

/-- Model of `handle_label_edit` when triggered by `save-label`: a falsy label or a
falsy selection leaves the store unchanged. -/
def handle_label_save (newLabel : String) (selected : Option String)
    (elements : List Elem) : List Elem :=
  if newLabel ≠ "" ∧ pyTruthy selected = true then
    elements.map (fun e => if some e.data.id = selected then relabelEl newLabel e else e)
  else elements

/-- Guard `any(... type == "building" and id != target ...)` of the retype. -/
def hasOtherBuilding (elements : List Elem) (target : String) : Prop :=
  ∃ e ∈ elements, e.data.type = some "building" ∧ e.data.id ≠ target

instance (elements : List Elem) (target : String) :
    Decidable (hasOtherBuilding elements target) := by
  unfold hasOtherBuilding; infer_instance

/-- Map a fallible update over a list, failing on the first failure — the
shape of the `for element in elements:` loop whose body can raise. -/
def mapOrFail (f : Elem → Option Elem) : List Elem → Option (List Elem)
  | [] => some []
  | e :: rest =>
    match f e with
    | none => none
    | some e' =>
      match mapOrFail f rest with
      | none => none
      | some rest' => some (e' :: rest')

/-- One element of the retype loop body, given the found `NodeType`. -/
def retypeEl (nt : NodeType) (e : Elem) : Elem :=
  { e with
    data := { e.data with
              type := some nt.key,
              typeLabel := some nt.label,
              label := some ((e.data.customLabel.getD (e.data.label.getD ""))
                               ++ "\n" ++ nt.label),
              color := some nt.color },
    classes := nt.key }

/-- Model of `handle_context_menu` when triggered by `context-apply`.  `none` models
the `KeyError` Python raises when `TYPE_MAP[type_key]` misses while a
matching element exists; Dash then leaves the store unchanged. -/
def handle_context_apply (typeKey : String) (selected rightClick : Option String)
    (elements : List Elem) : Option (List Elem) :=
  match pyOr rightClick selected with
  | none => some elements
  | some target =>
    if typeKey = "building" ∧ hasOtherBuilding elements target then some elements
    else
      mapOrFail
        (fun e =>
          if e.data.id = target then (typeMap typeKey).map (fun nt => retypeEl nt e)
          else some e)
        elements

/-- Model of `toggle_collapse` (the collapsed store is a Python set; it is modeled
as a list whose membership is what matters). -/
def toggle_collapse (collapsed : List String) (selected : Option String) :
    List String :=
  match selected with
  | none => collapsed
  | some s =>
    if s = "" then collapsed
    else if s ∈ collapsed then collapsed.filter (fun x => decide (x ≠ s))
    else collapsed ++ [s]

/-! ## Session state and reachability

The Dash stores form the session state.  The step relation below fires one
callback per step with an arbitrary admissible input event:

* tap events carry the `data` record of an element currently rendered as a
  node (Cytoscape's `tapNodeData` is the data of a tapped node element);
* right-click context events carry the id of a node element (both context
  menu items are declared with `availableOn: ["node"]`);
* fresh node ids drawn from `uuid` have the shape `"node-" ++ hex` and,
  collisions being negligible, are assumed distinct from every present id;
* `connect_nodes` and `handle_node_tap` both fire on a tap; they appear as
  independent steps, which over-approximates the set of reachable stores.
-/

/-- The Dash stores of one session. -/
structure AppState where
  elements : List Elem
  selected : Option String
  rightClick : Option String
  lastTap : LastTap
  collapsed : List String
  connectOn : Bool

/-- The initial store contents of `app.layout`. -/
def initState : AppState :=
  { elements := initial_elements,
    selected := some "building",
    rightClick := none,
    lastTap := { node := none, timestamp := 0 },
    collapsed := [],
    connectOn := false }

/-- Holds when `d` is the data record of a node element of the current store. -/
def isNodeData (elements : List Elem) (d : ElemData) : Prop :=
  ∃ e ∈ elements, e.data = d ∧ e.data.source = none ∧ e.data.target = none

/-- The first five characters of node ids the application generates. -/
def nodePre : List Char := "node-".data

/-- The first five characters of edge ids. -/
def edgePre : List Char := "edge-".data

/-- A fresh uuid-based node id: `"node-"`-shaped and absent from the store. -/
def freshNodeId (elements : List Elem) (f : String) : Prop :=
  f.data.take 5 = nodePre ∧ f ∉ elements.map (fun e => e.data.id)

/-- One callback firing. -/
inductive Step : AppState → AppState → Prop where
  | tap (st : AppState) (d : ElemData) (pos : Option (Int × Int)) (now : Int)
      (f : String) (hd : isNodeData st.elements d)
      (hf : freshNodeId st.elements f) :
      Step st
        { st with
          elements := (handle_node_tap (some d) pos st.elements st.selected st.lastTap now f).1,
          selected := (handle_node_tap (some d) pos st.elements st.selected st.lastTap now f).2.1,
          lastTap := (handle_node_tap (some d) pos st.elements st.selected st.lastTap now f).2.2 }
  | connectTap (st : AppState) (d : ElemData) (hd : isNodeData st.elements d) :
      Step st
        { st with elements := connect_nodes st.connectOn (some d) st.elements st.selected }
  | canvasDbl (st : AppState) (p : Int × Int) (f : String)
      (hf : freshNodeId st.elements f) :
      Step st
        { st with elements := handle_canvas_double_click (some p) st.elements f }
  | contextAction (st : AppState) (d : ElemData) (hd : isNodeData st.elements d) :
      Step st { st with rightClick := some d.id, selected := some d.id }
  | contextApply (st : AppState) (tk : String) :
      Step st
        { st with
          elements := (handle_context_apply tk st.selected st.rightClick st.elements).getD st.elements }
  | labelSave (st : AppState) (text : String) :
      Step st { st with elements := handle_label_save text st.selected st.elements }
  | collapseToggle (st : AppState) :
      Step st { st with collapsed := toggle_collapse st.collapsed st.selected }
  | connectToggle (st : AppState) (b : Bool) :
      Step st { st with connectOn := b }
  | showTypeDialog (st : AppState) :
      Step st { st with rightClick := st.selected }

/-- The stores reachable from a fresh session. -/
def Reach (st : AppState) : Prop :=
  Relation.ReflTransGen Step initState st

/-! ## Basic equations for the traversal loop -/

@[simp]
theorem collectLoop_nil (cmap : List (String × List String)) (fuel : Nat)
    (h : List String) : collectLoop cmap fuel [] h = some h := by
  cases fuel <;> rfl

@[simp]
theorem collectLoop_zero_cons (cmap : List (String × List String)) (c : String)
    (rest h : List String) : collectLoop cmap 0 (c :: rest) h = none := rfl

@[simp]
theorem collectLoop_succ_cons (cmap : List (String × List String)) (fuel : Nat)
    (c : String) (rest h : List String) :
    collectLoop cmap (fuel + 1) (c :: rest) h
      = collectLoop cmap fuel (rest ++ lookupChildren cmap c) (List.insert c h) := rfl

theorem lookupChildren_cases (cmap : List (String × List String)) (k : String) :
    lookupChildren cmap k = [] ∨
      ∃ kv ∈ cmap, kv.1 = k ∧ lookupChildren cmap k = kv.2 := by
  unfold lookupChildren
  cases hf : cmap.find? (fun kv => decide (kv.1 = k)) with
  | none => exact Or.inl rfl
  | some kv =>
    refine Or.inr ⟨kv, List.mem_of_find?_eq_some hf, ?_, rfl⟩
    have hp := List.find?_some hf
    exact of_decide_eq_true hp

/-! ## Termination of the traversal on rank-certified (acyclic) indices -/

/-- The longest child list in the index. -/
def maxBranch (cmap : List (String × List String)) : Nat :=
  cmap.foldr (fun kv acc => max kv.2.length acc) 0

theorem length_le_maxBranch {cmap : List (String × List String)}
    {kv : String × List String} (h : kv ∈ cmap) :
    kv.2.length ≤ maxBranch cmap := by
  induction cmap with
  | nil => cases h
  | cons a l ih =>
    rcases List.mem_cons.mp h with rfl | hm
    · exact le_max_left _ _
    · exact le_trans (ih hm) (le_max_right _ _)

theorem lookupChildren_length_le (cmap : List (String × List String))
    (k : String) : (lookupChildren cmap k).length ≤ maxBranch cmap := by
  rcases lookupChildren_cases cmap k with h | ⟨kv, hm, _, he⟩
  · simp [h]
  · rw [he]; exact length_le_maxBranch hm

theorem rank_lt_of_child {cmap : List (String × List String)}
    {rank : String → Nat}
    (hcert : ∀ p ∈ cmap, ∀ c ∈ p.2, rank c < rank p.1)
    {a c : String} (hc : c ∈ lookupChildren cmap a) : rank c < rank a := by
  rcases lookupChildren_cases cmap a with h | ⟨kv, hm, hk, he⟩
  · rw [h] at hc; cases hc
  · rw [he] at hc
    have := hcert kv hm c hc
    rwa [hk] at this

/-- A weight that strictly decreases at every loop iteration: each queue
entry `n` contributes `(B+1) ^ rank n`. -/
def qMeasure (rank : String → Nat) (B : Nat) (q : List String) : Nat :=
  (q.map (fun n => (B + 1) ^ rank n)).sum

theorem qMeasure_append (rank : String → Nat) (B : Nat) (q1 q2 : List String) :
    qMeasure rank B (q1 ++ q2) = qMeasure rank B q1 + qMeasure rank B q2 := by
  simp [qMeasure]

theorem qMeasure_cons (rank : String → Nat) (B : Nat) (c : String)
    (q : List String) :
    qMeasure rank B (c :: q) = (B + 1) ^ rank c + qMeasure rank B q := by
  simp [qMeasure]

theorem sum_map_le (l : List String) (f : String → Nat) (M : Nat)
    (h : ∀ x ∈ l, f x ≤ M) : (l.map f).sum ≤ l.length * M := by
  induction l with
  | nil => simp
  | cons a l ih =>
    simp only [List.map_cons, List.sum_cons, List.length_cons]
    have h1 := h a (List.mem_cons_self a l)
    have h2 := ih (fun x hx => h x (List.mem_cons_of_mem a hx))
    calc f a + (l.map f).sum ≤ M + l.length * M := Nat.add_le_add h1 h2
    _ = (l.length + 1) * M := by ring

theorem childMeasure_lt {cmap : List (String × List String)}
    {rank : String → Nat}
    (hcert : ∀ p ∈ cmap, ∀ c ∈ p.2, rank c < rank p.1) (c : String) :
    qMeasure rank (maxBranch cmap) (lookupChildren cmap c) + 1
      ≤ (maxBranch cmap + 1) ^ rank c := by
  set B := maxBranch cmap with hB
  by_cases hch : lookupChildren cmap c = []
  · have : 1 ≤ (B + 1) ^ rank c := Nat.one_le_pow _ _ (Nat.succ_pos B)
    simpa [qMeasure, hch] using this
  · have hrank : ∀ x ∈ lookupChildren cmap c, rank x < rank c :=
      fun x hx => rank_lt_of_child hcert hx
    obtain ⟨hd, hhd⟩ := List.exists_mem_of_ne_nil _ hch
    have hpos : 0 < rank c := by
      have := hrank hd hhd
      omega
    have hterm : ∀ x ∈ lookupChildren cmap c,
        (B + 1) ^ rank x ≤ (B + 1) ^ (rank c - 1) := by
      intro x hx
      exact Nat.pow_le_pow_right (Nat.succ_pos B) (by have := hrank x hx; omega)
    have hsum : qMeasure rank B (lookupChildren cmap c)
        ≤ (lookupChildren cmap c).length * (B + 1) ^ (rank c - 1) :=
      sum_map_le _ _ _ hterm
    have hlen : (lookupChildren cmap c).length * (B + 1) ^ (rank c - 1)
        ≤ B * (B + 1) ^ (rank c - 1) :=
      Nat.mul_le_mul_right _ (lookupChildren_length_le cmap c)
    have hX : 1 ≤ (B + 1) ^ (rank c - 1) := Nat.one_le_pow _ _ (Nat.succ_pos B)
    have hpow : (B + 1) ^ rank c = (B + 1) * (B + 1) ^ (rank c - 1) := by
      conv_lhs => rw [show rank c = (rank c - 1) + 1 by omega]
      rw [pow_succ]
      ring
    calc qMeasure rank B (lookupChildren cmap c) + 1
        ≤ B * (B + 1) ^ (rank c - 1) + 1 := by omega
      _ ≤ B * (B + 1) ^ (rank c - 1) + (B + 1) ^ (rank c - 1) := by omega
      _ = (B + 1) * (B + 1) ^ (rank c - 1) := by ring
      _ = (B + 1) ^ rank c := hpow.symm

theorem collectLoop_terminates {cmap : List (String × List String)}
    {rank : String → Nat}
    (hcert : ∀ p ∈ cmap, ∀ c ∈ p.2, rank c < rank p.1) :
    ∀ fuel q h, qMeasure rank (maxBranch cmap) q ≤ fuel →
      ∃ res, collectLoop cmap fuel q h = some res := by
  intro fuel
  induction fuel with
  | zero =>
    intro q h hq
    cases q with
    | nil => exact ⟨h, collectLoop_nil _ _ _⟩
    | cons c rest =>
      rw [qMeasure_cons] at hq
      have : 0 < (maxBranch cmap + 1) ^ rank c :=
        Nat.pos_pow_of_pos _ (Nat.succ_pos _)
      omega
  | succ n ih =>
    intro q h hq
    cases q with
    | nil => exact ⟨h, collectLoop_nil _ _ _⟩
    | cons c rest =>
      rw [collectLoop_succ_cons]
      apply ih
      rw [qMeasure_append]
      rw [qMeasure_cons] at hq
      have := childMeasure_lt hcert c
      omega

/-! ## A cyclic children index makes the traversal diverge -/

/-- A two-node cyclic children index: `a → b → a`. -/
def cyc2 : List (String × List String) := [("a", ["b"]), ("b", ["a"])]

theorem cyc2_loop_none :
    ∀ fuel (q h : List String), (q = ["a"] ∨ q = ["b"]) →
      collectLoop cyc2 fuel q h = none := by
  intro fuel
  induction fuel with
  | zero =>
    intro q h hq
    rcases hq with rfl | rfl <;> rfl
  | succ n ih =>
    intro q h hq
    rcases hq with rfl | rfl
    · rw [collectLoop_succ_cons]
      exact ih _ _ (Or.inr rfl)
    · rw [collectLoop_succ_cons]
      exact ih _ _ (Or.inl rfl)

/-! ## Breadth-first traversal: soundness and completeness -/

theorem collectLoop_sound (cmap : List (String × List String)) (root : String) :
    ∀ fuel q h res, collectLoop cmap fuel q h = some res →
      (∀ m ∈ q, Descend cmap root m) → (∀ m ∈ h, Descend cmap root m) →
      ∀ n ∈ res, Descend cmap root n := by
  intro fuel
  induction fuel with
  | zero =>
    intro q h res hres hq hh
    cases q with
    | nil =>
      rw [collectLoop_nil] at hres
      cases hres
      exact hh
    | cons c rest => rw [collectLoop_zero_cons] at hres; cases hres
  | succ n ih =>
    intro q h res hres hq hh
    cases q with
    | nil =>
      rw [collectLoop_nil] at hres
      cases hres
      exact hh
    | cons c rest =>
      rw [collectLoop_succ_cons] at hres
      refine ih _ _ _ hres ?_ ?_
      · intro m hm
        rcases List.mem_append.mp hm with hm | hm
        · exact hq m (List.mem_cons_of_mem c hm)
        · exact Relation.TransGen.tail (hq c (List.mem_cons_self c rest)) hm
      · intro m hm
        rcases List.mem_insert_iff.mp hm with rfl | hm
        · exact hq m (List.mem_cons_self m rest)
        · exact hh m hm

theorem collectLoop_complete (cmap : List (String × List String)) :
    ∀ fuel q h res, collectLoop cmap fuel q h = some res →
      (∀ x ∈ h, ∀ c ∈ lookupChildren cmap x, c ∈ h ∨ c ∈ q) →
      (∀ m ∈ q, m ∈ res) ∧ (∀ m ∈ h, m ∈ res) ∧
        (∀ x ∈ res, ∀ c ∈ lookupChildren cmap x, c ∈ res) := by
  intro fuel
  induction fuel with
  | zero =>
    intro q h res hres hcl
    cases q with
    | nil =>
      rw [collectLoop_nil] at hres
      cases hres
      refine ⟨by simp, fun m hm => hm, ?_⟩
      intro x hx c hc
      rcases hcl x hx c hc with h1 | h1
      · exact h1
      · cases h1
    | cons c rest => rw [collectLoop_zero_cons] at hres; cases hres
  | succ n ih =>
    intro q h res hres hcl
    cases q with
    | nil =>
      rw [collectLoop_nil] at hres
      cases hres
      refine ⟨by simp, fun m hm => hm, ?_⟩
      intro x hx c hc
      rcases hcl x hx c hc with h1 | h1
      · exact h1
      · cases h1
    | cons c rest =>
      rw [collectLoop_succ_cons] at hres
      have hcl' : ∀ x ∈ List.insert c h, ∀ d ∈ lookupChildren cmap x,
          d ∈ List.insert c h ∨ d ∈ rest ++ lookupChildren cmap c := by
        intro x hx d hd
        rcases List.mem_insert_iff.mp hx with rfl | hx
        · exact Or.inr (List.mem_append.mpr (Or.inr hd))
        · rcases hcl x hx d hd with h1 | h1
          · exact Or.inl (List.mem_insert_of_mem h1)
          · rcases List.mem_cons.mp h1 with rfl | h1
            · exact Or.inl (List.mem_insert_self _ _)
            · exact Or.inr (List.mem_append.mpr (Or.inl h1))
      obtain ⟨ihq, ihh, ihcl⟩ := ih _ _ _ hres hcl'
      refine ⟨?_, ?_, ihcl⟩
      · intro m hm
        rcases List.mem_cons.mp hm with rfl | hm
        · exact ihh _ (List.mem_insert_self _ _)
        · exact ihq _ (List.mem_append.mpr (Or.inl hm))
      · intro m hm
        exact ihh _ (List.mem_insert_of_mem hm)

/-- The set a successful traversal returns is exactly the set of proper
descendants of the root. -/
theorem collectDescendants_correct {fuel : Nat}
    {cmap : List (String × List String)} {root : String} {res : List String}
    (h : collectDescendantsF fuel cmap root = some res) :
    ∀ n, n ∈ res ↔ Descend cmap root n := by
  intro n
  constructor
  · intro hn
    refine collectLoop_sound cmap root fuel _ _ _ h ?_ ?_ n hn
    · intro m hm
      exact Relation.TransGen.single hm
    · intro m hm; cases hm
  · intro hn
    obtain ⟨hq, _, hcl⟩ := collectLoop_complete cmap fuel _ _ _ h (by intro x hx; cases hx)
    induction hn with
    | single hstep => exact hq _ hstep
    | tail hlt hstep ihm => exact hcl _ ihm _ hstep

/-- Membership in the accumulated hidden set across all collapsed roots. -/
theorem hiddenNodesF_mem (fuel : Nat) (cmap : List (String × List String)) :
    ∀ (collapsed acc res : List String),
      hiddenNodesF fuel cmap collapsed acc = some res →
      ∀ n, n ∈ res ↔ n ∈ acc ∨ ∃ c ∈ collapsed, Descend cmap c n := by
  intro collapsed
  induction collapsed with
  | nil =>
    intro acc res hres n
    simp only [hiddenNodesF] at hres
    cases hres
    simp
  | cons c rest ih =>
    intro acc res hres n
    simp only [hiddenNodesF] at hres
    cases hc : collectDescendantsF fuel cmap c with
    | none => rw [hc] at hres; cases hres
    | some hset =>
      rw [hc] at hres
      have hmem := ih _ _ hres n
      have hcor := collectDescendants_correct hc n
      simp only [List.mem_append] at hmem
      constructor
      · intro hn
        rcases hmem.mp hn with (h1 | h1) | h1
        · exact Or.inl h1
        · exact Or.inr ⟨c, List.mem_cons_self _ _, hcor.mp h1⟩
        · obtain ⟨x, hx, hd⟩ := h1
          exact Or.inr ⟨x, List.mem_cons_of_mem _ hx, hd⟩
      · intro hn
        rcases hn with h1 | ⟨x, hx, hd⟩
        · exact hmem.mpr (Or.inl (Or.inl h1))
        · rcases List.mem_cons.mp hx with rfl | hx
          · exact hmem.mpr (Or.inl (Or.inr (hcor.mpr hd)))
          · exact hmem.mpr (Or.inr ⟨x, hx, hd⟩)

/-! ## Claim C4 -/

/-- Claim C4, counterexample: the claim asserts the descendant-collection
traversal terminates for every children index, including a cyclic one,
thanks to a defensive visited set.  `collect_descendants` has no visited
set: on the cyclic index `a → b → a` the loop never terminates — no amount
of fuel makes it return. -/
theorem C4_traversal_termination_counterexample :
    ¬ ∃ fuel res, collectDescendantsF fuel cyc2 "a" = some res := by
  rintro ⟨fuel, res, h⟩
  have hn := cyc2_loop_none fuel (lookupChildren cyc2 "a") [] (Or.inr (by decide))
  unfold collectDescendantsF at h
  rw [hn] at h
  cases h

/-- Claim C4 (amended): the traversal terminates for every *acyclic*
children index — witnessed by a rank function that decreases from parent
to child — but, there being no visited set, not for cyclic ones (see the
counterexample). -/
theorem C4_traversal_termination_amended (cmap : List (String × List String))
    (rank : String → Nat) (root : String)
    (hcert : ∀ p ∈ cmap, ∀ c ∈ p.2, rank c < rank p.1) :
    ∃ fuel res, collectDescendantsF fuel cmap root = some res := by
  obtain ⟨res, hres⟩ :=
    collectLoop_terminates hcert
      (qMeasure rank (maxBranch cmap) (lookupChildren cmap root))
      (lookupChildren cmap root) [] le_rfl
  exact ⟨_, res, hres⟩

/-- A rank function for the one-edge index `r → s`. -/
def c4rank : String → Nat := fun s => if s = "r" then 1 else 0

/-- Claim C4, witness: the amended theorem applied to the concrete acyclic
index `[("r", ["s"])]`. -/
theorem C4_traversal_termination_witness :
    (∀ p ∈ [("r", ["s"])], ∀ c ∈ p.2, c4rank c < c4rank p.1)
    ∧ ∃ fuel res, collectDescendantsF fuel [("r", ["s"])] "r" = some res :=
  ⟨by decide, C4_traversal_termination_amended _ c4rank "r" (by decide)⟩

/-! ## Claim C3 -/

/-- Claim C3 (amended): for a traversal that completes (in particular for
every acyclic children index, by the C4 termination theorem), the hidden
set contains every proper descendant of every collapsed node and nothing
else — so a collapsed node, or an ancestor of a collapsed node, is hidden
exactly when it is itself a proper descendant of some collapsed node (the
original claim's "never" fails for nested collapsed nodes, see the
counterexample) — and an edge is class-marked hidden exactly when at
least one of its endpoints is in the hidden set. -/
theorem C3_hidden_set_amended (elements : List Elem) (collapsed : List String)
    (fuel : Nat) (hid : List String) (out : List Elem)
    (hh : hiddenNodesF fuel (buildChildrenMap elements) collapsed [] = some hid)
    (hv : applyVisibilityF fuel elements collapsed = some out) :
    (∀ c ∈ collapsed, ∀ n, Descend (buildChildrenMap elements) c n → n ∈ hid)
    ∧ (∀ n, n ∈ hid ↔ ∃ c ∈ collapsed, Descend (buildChildrenMap elements) c n)
    ∧ out = elements.map (annotateEl hid)
    ∧ (∀ e ∈ elements, ∀ s t, e.data.source = some s → e.data.target = some t →
        annotateEl hid e =
          if s ∈ hid ∨ t ∈ hid then
            { e with classes := pyStrip ("hidden " ++ e.classes) }
          else e) := by
  have hmem : ∀ n, n ∈ hid ↔
      ∃ c ∈ collapsed, Descend (buildChildrenMap elements) c n := by
    intro n
    have := hiddenNodesF_mem fuel (buildChildrenMap elements) collapsed [] hid hh n
    simpa using this
  refine ⟨?_, hmem, ?_, ?_⟩
  · intro c hc n hd
    exact (hmem n).mpr ⟨c, hc, hd⟩
  · unfold applyVisibilityF at hv
    rw [hh] at hv
    cases hv
    rfl
  · intro e _ s t hs ht
    by_cases hcond : s ∈ hid ∨ t ∈ hid
    · simp [annotateEl, elemHidden, hs, ht, hcond]
    · push_neg at hcond
      simp [annotateEl, elemHidden, hs, ht, hcond.1, hcond.2]

/-- Child 1 of the concrete three-node chain. -/
def c3n1 : Elem := makeNodeT "n1" "A" sensorsT (some "node-root") none

/-- Child 2 (grandchild of the root) of the concrete three-node chain. -/
def c3n2 : Elem := makeNodeT "n2" "B" sensorsT (some "n1") none

/-- The chain `node-root → n1 → n2`. -/
def c3els : List Elem := initial_elements ++ [c3n1, c3n2]

/-- A decreasing rank function certifying that the chain is acyclic. -/
def c3rank : String → Nat :=
  fun s => if s = "node-root" then 2 else if s = "n1" then 1 else 0

/-- Claim C3, counterexample: on the acyclic chain `node-root → n1 → n2`
with collapse set `{node-root, n1}`, the collapsed node `n1` *is* in the
hidden set (it is a descendant of the other collapsed node), refuting
"never contains a collapsed node itself". -/
theorem C3_hidden_set_counterexample :
    (∀ p ∈ buildChildrenMap c3els, ∀ c ∈ p.2, c3rank c < c3rank p.1)
    ∧ (hiddenNodesF 5 (buildChildrenMap c3els) ["node-root", "n1"] []).isSome = true
    ∧ "n1" ∈ (hiddenNodesF 5 (buildChildrenMap c3els) ["node-root", "n1"] []).getD []
    ∧ "n1" ∈ ["node-root", "n1"] := by
  decide

/-- The hidden set the engine computes for the witness inputs. -/
def c3hid : List String :=
  (hiddenNodesF 5 (buildChildrenMap c3els) ["node-root"] []).getD []

/-- The projected elements for the witness inputs. -/
def c3out : List Elem := (applyVisibilityF 5 c3els ["node-root"]).getD []

/-- Claim C3, witness: the amended theorem applied to the concrete chain
with the root collapsed. -/
theorem C3_hidden_set_witness :
    (hiddenNodesF 5 (buildChildrenMap c3els) ["node-root"] [] = some c3hid
      ∧ applyVisibilityF 5 c3els ["node-root"] = some c3out)
    ∧ ((∀ c ∈ ["node-root"], ∀ n, Descend (buildChildrenMap c3els) c n → n ∈ c3hid)
      ∧ (∀ n, n ∈ c3hid ↔ ∃ c ∈ ["node-root"], Descend (buildChildrenMap c3els) c n)
      ∧ c3out = c3els.map (annotateEl c3hid)
      ∧ (∀ e ∈ c3els, ∀ s t, e.data.source = some s → e.data.target = some t →
          annotateEl c3hid e =
            if s ∈ c3hid ∨ t ∈ c3hid then
              { e with classes := pyStrip ("hidden " ++ e.classes) }
            else e)) :=
  ⟨⟨rfl, rfl⟩, C3_hidden_set_amended c3els ["node-root"] 5 c3hid c3out rfl rfl⟩

/-! ## Claim C10 -/

theorem annotateEl_data (hid : List String) (e : Elem) :
    (annotateEl hid e).data = e.data := by
  unfold annotateEl; split <;> rfl

theorem annotateEl_position (hid : List String) (e : Elem) :
    (annotateEl hid e).position = e.position := by
  unfold annotateEl; split <;> rfl

theorem annotateEl_classes (hid : List String) (e : Elem) :
    (annotateEl hid e).classes =
      if elemHidden hid e then pyStrip ("hidden " ++ e.classes) else e.classes := by
  unfold annotateEl; split <;> simp_all

/-- Claim C10: the visibility projection returns a list of the same length
and order; every element keeps its `data` record and position unchanged,
and only the `classes` annotation changes, becoming the stripped
`"hidden "`-prefixed form exactly on hidden elements — hiding removes
nothing from the payload. -/
theorem C10_projection_frame (elements : List Elem) (collapsed : List String)
    (fuel : Nat) (hid : List String) (out : List Elem)
    (hh : hiddenNodesF fuel (buildChildrenMap elements) collapsed [] = some hid)
    (hv : applyVisibilityF fuel elements collapsed = some out) :
    out.length = elements.length
    ∧ ∀ i (h1 : i < out.length) (h2 : i < elements.length),
        (out.get ⟨i, h1⟩).data = (elements.get ⟨i, h2⟩).data
        ∧ (out.get ⟨i, h1⟩).position = (elements.get ⟨i, h2⟩).position
        ∧ (out.get ⟨i, h1⟩).classes =
            (if elemHidden hid (elements.get ⟨i, h2⟩) then
              pyStrip ("hidden " ++ (elements.get ⟨i, h2⟩).classes)
            else (elements.get ⟨i, h2⟩).classes) := by
  unfold applyVisibilityF at hv
  rw [hh] at hv
  cases hv
  refine ⟨List.length_map _ _, ?_⟩
  intro i h1 h2
  simp only [List.get_eq_getElem, List.getElem_map]
  exact ⟨annotateEl_data hid _, annotateEl_position hid _, annotateEl_classes hid _⟩

/-- The projection of the initial store with nothing collapsed. -/
def c10out : List Elem := (applyVisibilityF 1 initial_elements []).getD []

/-- Claim C10, witness: the frame theorem applied to the initial store. -/
theorem C10_projection_frame_witness :
    (hiddenNodesF 1 (buildChildrenMap initial_elements) [] [] = some []
      ∧ applyVisibilityF 1 initial_elements [] = some c10out)
    ∧ (c10out.length = initial_elements.length
      ∧ ∀ i (h1 : i < c10out.length) (h2 : i < initial_elements.length),
          (c10out.get ⟨i, h1⟩).data = (initial_elements.get ⟨i, h2⟩).data
          ∧ (c10out.get ⟨i, h1⟩).position = (initial_elements.get ⟨i, h2⟩).position
          ∧ (c10out.get ⟨i, h1⟩).classes =
              (if elemHidden [] (initial_elements.get ⟨i, h2⟩) then
                pyStrip ("hidden " ++ (initial_elements.get ⟨i, h2⟩).classes)
              else (initial_elements.get ⟨i, h2⟩).classes)) :=
  ⟨⟨rfl, rfl⟩, C10_projection_frame initial_elements [] 1 [] c10out rfl rfl⟩

/-! ## Claim C1 -/

theorem typeMap_building : typeMap "building" = some buildingT := rfl

theorem mapOrFail_skip (target : String) (f : Elem → Option Elem) :
    ∀ l : List Elem, (∀ e ∈ l, e.data.id ≠ target) →
      mapOrFail (fun e => if e.data.id = target then f e else some e) l = some l := by
  intro l
  induction l with
  | nil => intro _; rfl
  | cons a l ih =>
    intro h
    have ha := h a (List.mem_cons_self a l)
    simp only [mapOrFail, if_neg ha]
    rw [ih (fun e he => h e (List.mem_cons_of_mem a he))]

theorem mapOrFail_hit (target : String) (f : Elem → Option Elem)
    (hf : ∀ e, f e = none) :
    ∀ l : List Elem, (∃ e ∈ l, e.data.id = target) →
      mapOrFail (fun e => if e.data.id = target then f e else some e) l = none := by
  intro l
  induction l with
  | nil => rintro ⟨e, he, _⟩; cases he
  | cons a l ih =>
    rintro ⟨e, he, hid⟩
    rcases List.mem_cons.mp he with rfl | he
    · simp only [mapOrFail, if_pos hid, hf]
    · simp only [mapOrFail]
      cases hfa : (if a.data.id = target then f a else some a) with
      | none => rfl
      | some a' =>
        rw [ih ⟨e, he, hid⟩]

/-- Claim C1 (amended): retyping with a key outside the enumerated set is a
no-op only when no element carries the resolved target id (in particular
when the target resolution is falsy); when a matching element exists the
update raises a key-lookup error (modeled `none`) instead of being a
silent no-op — Dash then discards the output, so the store is still not
modified, but the operation is an error, not a no-op. -/
theorem C1_retype_invalid_key_amended (elements : List Elem) (tk : String)
    (sel rc : Option String) (htk : typeMap tk = none) :
    (pyOr rc sel = none → handle_context_apply tk sel rc elements = some elements)
    ∧ (∀ target, pyOr rc sel = some target →
        ((∀ e ∈ elements, e.data.id ≠ target) →
          handle_context_apply tk sel rc elements = some elements)
        ∧ ((∃ e ∈ elements, e.data.id = target) →
          handle_context_apply tk sel rc elements = none)) := by
  have htkb : tk ≠ "building" := by
    intro h
    rw [h, typeMap_building] at htk
    cases htk
  constructor
  · intro hor
    unfold handle_context_apply
    rw [hor]
  · intro target hor
    have hred : handle_context_apply tk sel rc elements
        = mapOrFail
            (fun e => if e.data.id = target then
              Option.map (fun nt => retypeEl nt e) (typeMap tk) else some e)
            elements := by
      unfold handle_context_apply
      rw [hor]
      exact if_neg (fun hand => htkb hand.1)
    constructor
    · intro hnone
      rw [hred]
      simp only [htk, Option.map_none']
      exact mapOrFail_skip target _ elements hnone
    · intro hhit
      rw [hred]
      simp only [htk, Option.map_none']
      exact mapOrFail_hit target _ (fun _ => rfl) elements hhit

/-- Claim C1, counterexample: retyping the present node `node-root` with
the invalid key `"bogus"` raises (modeled `none`) instead of returning the
store unchanged. -/
theorem C1_retype_invalid_key_counterexample :
    typeMap "bogus" = none
    ∧ handle_context_apply "bogus" (some "node-root") none initial_elements = none :=
  ⟨rfl, rfl⟩

/-- Claim C1, witness: the amended theorem applied to the invalid key
`"plumbing"` and an absent target id. -/
theorem C1_retype_invalid_key_witness :
    typeMap "plumbing" = none
    ∧ ((pyOr none (some "nope") = none →
          handle_context_apply "plumbing" (some "nope") none initial_elements
            = some initial_elements)
      ∧ (∀ target, pyOr none (some "nope") = some target →
          ((∀ e ∈ initial_elements, e.data.id ≠ target) →
            handle_context_apply "plumbing" (some "nope") none initial_elements
              = some initial_elements)
          ∧ ((∃ e ∈ initial_elements, e.data.id = target) →
            handle_context_apply "plumbing" (some "nope") none initial_elements
              = none))) :=
  ⟨rfl, C1_retype_invalid_key_amended initial_elements "plumbing" (some "nope") none rfl⟩

/-! ## Claim C2 -/

/-- The number of edge elements between `a` and `b`, in either direction. -/
def countPair (a b : String) (l : List Elem) : Nat :=
  (l.filter (fun e =>
    (decide (e.data.source = some a) && decide (e.data.target = some b))
      || (decide (e.data.source = some b) && decide (e.data.target = some a)))).length

theorem mem_edgePairs (l : List Elem) (x y : String) :
    (x, y) ∈ edgePairs l ↔
      ∃ e ∈ l, e.data.source = some x ∧ e.data.target = some y ∧ x ≠ "" := by
  unfold edgePairs
  rw [List.mem_filterMap]
  constructor
  · rintro ⟨e, he, hf⟩
    refine ⟨e, he, ?_⟩
    cases hs : e.data.source with
    | none => rw [hs] at hf; cases hf
    | some s =>
      cases ht : e.data.target with
      | none => rw [hs, ht] at hf; cases hf
      | some t =>
        rw [hs, ht] at hf
        have hf' : (if s = "" then (none : Option (String × String))
            else some (s, t)) = some (x, y) := hf
        by_cases hse : s = ""
        · rw [if_pos hse] at hf'; cases hf'
        · rw [if_neg hse] at hf'
          obtain ⟨h1, h2⟩ := Prod.mk.inj (Option.some_inj.mp hf')
          subst h1
          subst h2
          exact ⟨rfl, rfl, hse⟩
  · rintro ⟨e, he, hs, ht, hx⟩
    refine ⟨e, he, ?_⟩
    rw [hs, ht]
    show (if x = "" then (none : Option (String × String)) else some (x, y)) = some (x, y)
    rw [if_neg hx]

theorem not_mem_edgePairs_of_countPair {l : List Elem} {a b : String}
    (h : countPair a b l = 0) :
    (a, b) ∉ edgePairs l ∧ (b, a) ∉ edgePairs l := by
  have hnil : ∀ e ∈ l, ¬((decide (e.data.source = some a) && decide (e.data.target = some b))
      || (decide (e.data.source = some b) && decide (e.data.target = some a))) = true := by
    have := List.length_eq_zero.mp h
    intro e he
    exact List.filter_eq_nil_iff.mp this e he
  constructor
  · intro hm
    obtain ⟨e, he, hs, ht, _⟩ := (mem_edgePairs l a b).mp hm
    exact hnil e he (by simp [hs, ht])
  · intro hm
    obtain ⟨e, he, hs, ht, _⟩ := (mem_edgePairs l b a).mp hm
    exact hnil e he (by simp [hs, ht])

theorem connect_nodes_eq (d : ElemData) (l : List Elem) (sel : Option String) :
    connect_nodes true (some d) l sel =
      if d.id = "" ∨ some d.id = sel ∨ pairConn l sel d.id = true then l
      else l ++ [make_edgeO sel d.id] := by
  have hdef : connect_nodes true (some d) l sel
      = (if d.id = "" then l else if some d.id = sel then l
          else if pairConn l sel d.id then l else l ++ [make_edgeO sel d.id]) := rfl
  rw [hdef]
  split_ifs with h1 h2 h3 h4 h5 h6 <;> tauto

/-- Claim C2 (amended): a tap in connection mode is a no-op exactly when the
tapped id is falsy, equals the selection, or an edge between the pair
already exists in either direction — *presence of either endpoint in the
store is not checked* (see the counterexample) — and otherwise appends
exactly one edge whose id derives from the ordered pair; `addEdge(a,b)`
then `addEdge(b,a)` still yields exactly one edge, and `addEdge(a,a)` is
always a no-op.  The well-formedness hypothesis (an element with a source
has a target) marks the stores on which the Python dictionary access
cannot raise. -/
theorem C2_add_edge_amended (elements : List Elem) (sel : Option String)
    (d dA dB : ElemData) (a b : String)
    (hwf : ∀ e ∈ elements, e.data.source.isSome = true → e.data.target.isSome = true)
    (hA : dA.id = a) (hB : dB.id = b) (hab : a ≠ b) (ha : a ≠ "") (hb : b ≠ "")
    (h0 : countPair a b elements = 0) :
    (connect_nodes true (some d) elements sel =
      if d.id = "" ∨ some d.id = sel ∨ pairConn elements sel d.id = true then elements
      else elements ++ [make_edgeO sel d.id])
    ∧ connect_nodes true (some d) elements (some d.id) = elements
    ∧ connect_nodes true (some dA) (connect_nodes true (some dB) elements (some a)) (some b)
        = connect_nodes true (some dB) elements (some a)
    ∧ countPair a b
        (connect_nodes true (some dA) (connect_nodes true (some dB) elements (some a)) (some b))
        = 1 := by
  have hnm := not_mem_edgePairs_of_countPair h0
  have hc1 : pairConn elements (some a) b = false := by
    simp only [pairConn, Bool.or_eq_false_iff, decide_eq_false_iff_not]
    exact ⟨hnm.1, hnm.2⟩
  have hs1 : connect_nodes true (some dB) elements (some a)
      = elements ++ [make_edgeO (some a) b] := by
    rw [connect_nodes_eq, hB, if_neg]
    rintro (h | h | h)
    · exact hb h
    · exact hab (Option.some_inj.mp h).symm
    · rw [hc1] at h; cases h
  have hpairs1 : edgePairs (elements ++ [make_edgeO (some a) b])
      = edgePairs elements ++ [(a, b)] := by
    rw [edgePairs, List.filterMap_append]
    congr 1
    simp [edgePairs, make_edgeO, blankData, ha]
  have hc2 : pairConn (elements ++ [make_edgeO (some a) b]) (some b) a = true := by
    simp only [pairConn, hpairs1, Bool.or_eq_true, decide_eq_true_eq, List.mem_append,
      List.mem_singleton]
    exact Or.inr (Or.inr trivial)
  have hs2 : connect_nodes true (some dA) (elements ++ [make_edgeO (some a) b]) (some b)
      = elements ++ [make_edgeO (some a) b] := by
    rw [connect_nodes_eq, hA, if_pos]
    exact Or.inr (Or.inr hc2)
  refine ⟨connect_nodes_eq d elements sel, ?_, ?_, ?_⟩
  · rw [connect_nodes_eq, if_pos (Or.inr (Or.inl rfl))]
  · rw [hs1, hs2]
  · rw [hs1, hs2]
    have hcount : countPair a b (elements ++ [make_edgeO (some a) b])
        = countPair a b elements + 1 := by
      simp [countPair, List.filter_append, make_edgeO, blankData]
    rw [hcount, h0]

/-- The data record of the initial root node. -/
def rootData : ElemData := (makeNodeT "node-root" "Building" buildingT none none).data

/-- Claim C2, counterexample: the initial selection `"building"` is not the
id of any stored element, yet tapping `node-root` in connection mode still
appends an edge — the claimed "no-op when either endpoint id is absent
from the store" check does not exist. -/
theorem C2_add_edge_counterexample :
    ("building" ∉ initial_elements.map (fun e => e.data.id))
    ∧ connect_nodes true (some rootData) initial_elements (some "building")
        = initial_elements ++ [make_edgeO (some "building") "node-root"]
    ∧ initial_elements ++ [make_edgeO (some "building") "node-root"]
        ≠ initial_elements := by
  decide

/-- An untapped helper data record whose id is `node-x1`. -/
def c2dB : ElemData := { blankData with id := "node-x1" }

/-- Claim C2, witness: the amended theorem applied to the initial store,
selection `"building"`, and the pair `node-root` / `node-x1`. -/
theorem C2_add_edge_witness :
    ((∀ e ∈ initial_elements, e.data.source.isSome = true → e.data.target.isSome = true)
      ∧ rootData.id = "node-root" ∧ c2dB.id = "node-x1"
      ∧ "node-root" ≠ "node-x1" ∧ "node-root" ≠ "" ∧ "node-x1" ≠ ""
      ∧ countPair "node-root" "node-x1" initial_elements = 0)
    ∧ ((connect_nodes true (some rootData) initial_elements (some "building") =
        if rootData.id = "" ∨ some rootData.id = some "building"
            ∨ pairConn initial_elements (some "building") rootData.id = true then
          initial_elements
        else initial_elements ++ [make_edgeO (some "building") rootData.id])
      ∧ connect_nodes true (some rootData) initial_elements (some rootData.id)
          = initial_elements
      ∧ connect_nodes true (some rootData)
          (connect_nodes true (some c2dB) initial_elements (some "node-root"))
          (some "node-x1")
        = connect_nodes true (some c2dB) initial_elements (some "node-root")
      ∧ countPair "node-root" "node-x1"
          (connect_nodes true (some rootData)
            (connect_nodes true (some c2dB) initial_elements (some "node-root"))
            (some "node-x1"))
        = 1) :=
  ⟨⟨by decide, rfl, rfl, by decide, by decide, by decide, by decide⟩,
    C2_add_edge_amended initial_elements (some "building") rootData rootData c2dB
      "node-root" "node-x1" (by decide) rfl rfl (by decide) (by decide) (by decide)
      (by decide)⟩

/-! ## Claim C8 -/

/-- Claim C8, counterexample: saving the *whitespace-only* label `" "` is
not a no-op — Python's truthiness only rejects the empty string, so the
blank label is stored. -/
theorem C8_relabel_counterexample :
    handle_label_save " " (some "node-root") initial_elements ≠ initial_elements := by
  decide

/-- Claim C8 (amended): saving an *empty* label leaves the store unchanged
(whitespace-only labels are stored like any other, see the counterexample);
saving non-empty `X` and then non-empty `Y` for a non-empty node id leaves
every element carrying that id with `customLabel = Y` and a recomposed
`label` containing `Y`. -/
theorem C8_relabel_amended (elements : List Elem) (nodeId X Y : String)
    (hX : X ≠ "") (hY : Y ≠ "") (hid : nodeId ≠ "") :
    handle_label_save "" (some nodeId) elements = elements
    ∧ ∀ e ∈ handle_label_save Y (some nodeId)
          (handle_label_save X (some nodeId) elements),
        e.data.id = nodeId →
          e.data.customLabel = some Y
          ∧ ∃ pre post, e.data.label = some (pre ++ Y ++ post) := by
  constructor
  · simp [handle_label_save]
  · intro e he heq
    have htr : pyTruthy (some nodeId) = true := by simp [pyTruthy, hid]
    rw [handle_label_save, if_pos ⟨hY, htr⟩] at he
    rw [handle_label_save, if_pos ⟨hX, htr⟩, List.map_map] at he
    obtain ⟨e0, he0, rfl⟩ := List.mem_map.mp he
    by_cases h0 : some e0.data.id = some nodeId
    · simp only [Function.comp, if_pos h0] at heq ⊢
      have h1 : some (relabelEl X e0).data.id = some nodeId := h0
      rw [if_pos h1]
      refine ⟨rfl, "", "\n" ++ ((relabelEl X e0).data.typeLabel.getD ""), ?_⟩
      simp [relabelEl, String.append_assoc]
    · simp only [Function.comp, if_neg h0] at heq ⊢
      exact absurd (congrArg some heq) h0

/-- Claim C8, witness: the amended theorem applied to the initial store and
the labels `X`, `Y`. -/
theorem C8_relabel_witness :
    (("X" : String) ≠ "" ∧ ("Y" : String) ≠ "" ∧ ("node-root" : String) ≠ "")
    ∧ (handle_label_save "" (some "node-root") initial_elements = initial_elements
      ∧ ∀ e ∈ handle_label_save "Y" (some "node-root")
            (handle_label_save "X" (some "node-root") initial_elements),
          e.data.id = "node-root" →
            e.data.customLabel = some "Y"
            ∧ ∃ pre post, e.data.label = some (pre ++ "Y" ++ post)) :=
  ⟨⟨by decide, by decide, by decide⟩,
    C8_relabel_amended initial_elements "node-root" "X" "Y" (by decide) (by decide)
      (by decide)⟩

/-! ## Claim C6 -/

/-- Claim C6: a tap on the last-tapped node within the 650 ms window
appends exactly one new `sensors` node parented to the tapped node (the
callback writes only the element, selection and last-tap stores — the
collapse store is untouched), and resets the timing state to the fresh id
with timestamp 0, so a third rapid tap on the same original node falls
into the single-tap branch and creates nothing. -/
theorem C6_double_tap (elements : List Elem) (sel sel2 : Option String)
    (lt : LastTap) (d : ElemData) (pos pos2 : Option (Int × Int))
    (n fresh fresh2 : String) (t0 now now2 : Int)
    (hlt : lt = { node := some n, timestamp := t0 })
    (hdid : d.id = n) (hn : n ≠ "") (hwin : now - t0 < 650) (hfr : fresh ≠ n) :
    (∃ newEl, (handle_node_tap (some d) pos elements sel lt now fresh).1
        = elements ++ [newEl]
      ∧ newEl.data.type = some "sensors"
      ∧ newEl.data.parent = some n
      ∧ newEl.data.id = fresh)
    ∧ (handle_node_tap (some d) pos elements sel lt now fresh).2.2
        = { node := some fresh, timestamp := 0 }
    ∧ (handle_node_tap (some d) pos2
          (handle_node_tap (some d) pos elements sel lt now fresh).1 sel2
          (handle_node_tap (some d) pos elements sel lt now fresh).2.2 now2 fresh2).1
        = (handle_node_tap (some d) pos elements sel lt now fresh).1
    ∧ (handle_node_tap (some d) pos2
          (handle_node_tap (some d) pos elements sel lt now fresh).1 sel2
          (handle_node_tap (some d) pos elements sel lt now fresh).2.2 now2 fresh2).2.2
        = { node := some n, timestamp := now2 } := by
  have hcond : lt.node = some d.id ∧ now - lt.timestamp < 650 := by
    rw [hlt, hdid]
    exact ⟨rfl, hwin⟩
  have hdef : handle_node_tap (some d) pos elements sel lt now fresh
      = (if lt.node = some d.id ∧ now - lt.timestamp < 650 then
          (elements ++ [makeNodeT fresh "New Node" sensorsT (some d.id)
              (pos.map (fun p => (p.1 + 60, p.2 + 40)))],
           some fresh, { node := some fresh, timestamp := 0 })
        else (elements, some d.id, { node := some d.id, timestamp := now })) := rfl
  rw [hdef, if_pos hcond]
  have hcond2 : ¬((({ node := some fresh, timestamp := 0 } : LastTap)).node = some d.id
      ∧ now2 - (({ node := some fresh, timestamp := 0 } : LastTap)).timestamp < 650) := by
    rintro ⟨h, -⟩
    exact hfr (by rw [hdid] at h; exact Option.some_inj.mp h)
  have hdef2 : ∀ el2 : List Elem,
      handle_node_tap (some d) pos2 el2 sel2 { node := some fresh, timestamp := 0 } now2 fresh2
        = (el2, some d.id, { node := some d.id, timestamp := now2 }) := by
    intro el2
    have h2 : handle_node_tap (some d) pos2 el2 sel2
        { node := some fresh, timestamp := 0 } now2 fresh2
        = (if (({ node := some fresh, timestamp := 0 } : LastTap)).node = some d.id
              ∧ now2 - (({ node := some fresh, timestamp := 0 } : LastTap)).timestamp < 650 then
            (el2 ++ [makeNodeT fresh2 "New Node" sensorsT (some d.id)
                (pos2.map (fun p => (p.1 + 60, p.2 + 40)))],
             some fresh2, { node := some fresh2, timestamp := 0 })
          else (el2, some d.id, { node := some d.id, timestamp := now2 })) := rfl
    rw [h2, if_neg hcond2]
  refine ⟨⟨makeNodeT fresh "New Node" sensorsT (some d.id)
      (pos.map (fun p => (p.1 + 60, p.2 + 40))), rfl, rfl, ?_, rfl⟩, rfl, ?_, ?_⟩
  · simp [makeNodeT, pyOptStr, hdid, hn]
  · rw [hdef2]
  · rw [hdef2, hdid]

/-- Fresh ids and timing values for the C6 witness. -/
def c6tap : LastTap := { node := some "node-root", timestamp := 1000 }

/-- Claim C6, witness: the double-tap theorem applied to the initial store,
a tap on `node-root` 500 ms after the previous one. -/
theorem C6_double_tap_witness :
    (c6tap = { node := some "node-root", timestamp := 1000 }
      ∧ rootData.id = "node-root" ∧ ("node-root" : String) ≠ ""
      ∧ (1500 : Int) - 1000 < 650 ∧ ("node-abc123" : String) ≠ "node-root")
    ∧ ((∃ newEl, (handle_node_tap (some rootData) none initial_elements
            (some "building") c6tap 1500 "node-abc123").1
          = initial_elements ++ [newEl]
        ∧ newEl.data.type = some "sensors"
        ∧ newEl.data.parent = some "node-root"
        ∧ newEl.data.id = "node-abc123")
      ∧ (handle_node_tap (some rootData) none initial_elements
            (some "building") c6tap 1500 "node-abc123").2.2
          = { node := some "node-abc123", timestamp := 0 }
      ∧ (handle_node_tap (some rootData) none
            (handle_node_tap (some rootData) none initial_elements
              (some "building") c6tap 1500 "node-abc123").1 none
            (handle_node_tap (some rootData) none initial_elements
              (some "building") c6tap 1500 "node-abc123").2.2 2000 "node-def456").1
          = (handle_node_tap (some rootData) none initial_elements
              (some "building") c6tap 1500 "node-abc123").1
      ∧ (handle_node_tap (some rootData) none
            (handle_node_tap (some rootData) none initial_elements
              (some "building") c6tap 1500 "node-abc123").1 none
            (handle_node_tap (some rootData) none initial_elements
              (some "building") c6tap 1500 "node-abc123").2.2 2000 "node-def456").2.2
          = { node := some "node-root", timestamp := 2000 }) :=
  ⟨⟨rfl, rfl, by decide, by decide, by decide⟩,
    C6_double_tap initial_elements (some "building") none c6tap rootData none none
      "node-root" "node-abc123" "node-def456" 1000 1500 2000 rfl rfl (by decide)
      (by decide) (by decide)⟩

/-! ## Claim C7 -/

/-- Claim C7, counterexample: the claim says processing a single tap in
connection mode leaves Selection unchanged, but `handle_node_tap` fires on
the same `tapNodeData` input and always writes the tapped id to the
selection store, so after the tap the Selection is the tapped node, not
the previous Selection. -/
theorem C7_selection_counterexample :
    (handle_node_tap (some rootData) none initial_elements (some "building")
        { node := none, timestamp := 0 } 1000000 "node-aaaaaa").2.1
      = some "node-root"
    ∧ (handle_node_tap (some rootData) none initial_elements (some "building")
        { node := none, timestamp := 0 } 1000000 "node-aaaaaa").2.1
      ≠ some "building" := by
  decide

/-- Claim C7 (amended): the `connect_nodes` callback writes only the
element store (it returns the store unchanged or with exactly one appended
edge, never touching Selection), but the tap handler that fires on the
same single tap sets Selection to the tapped node's id — so after the tap
the Selection equals the tapped id and differs from the prior Selection. -/
theorem C7_selection_amended (elements : List Elem) (sel : Option String)
    (lt : LastTap) (d : ElemData) (pos : Option (Int × Int)) (now : Int)
    (fresh : String)
    (hsingle : ¬(lt.node = some d.id ∧ now - lt.timestamp < 650))
    (hdiff : some d.id ≠ sel) :
    (handle_node_tap (some d) pos elements sel lt now fresh).2.1 = some d.id
    ∧ (handle_node_tap (some d) pos elements sel lt now fresh).2.1 ≠ sel
    ∧ (handle_node_tap (some d) pos elements sel lt now fresh).1 = elements
    ∧ ∀ co : Bool, connect_nodes co (some d) elements sel = elements
        ∨ ∃ ed, connect_nodes co (some d) elements sel = elements ++ [ed] := by
  have hdef : handle_node_tap (some d) pos elements sel lt now fresh
      = (if lt.node = some d.id ∧ now - lt.timestamp < 650 then
          (elements ++ [makeNodeT fresh "New Node" sensorsT (some d.id)
              (pos.map (fun p => (p.1 + 60, p.2 + 40)))],
           some fresh, { node := some fresh, timestamp := 0 })
        else (elements, some d.id, { node := some d.id, timestamp := now })) := rfl
  rw [hdef, if_neg hsingle]
  refine ⟨rfl, hdiff, rfl, ?_⟩
  intro co
  cases co with
  | false => exact Or.inl rfl
  | true =>
    rw [connect_nodes_eq]
    by_cases hcond : d.id = "" ∨ some d.id = sel ∨ pairConn elements sel d.id = true
    · rw [if_pos hcond]
      exact Or.inl rfl
    · rw [if_neg hcond]
      exact Or.inr ⟨make_edgeO sel d.id, rfl⟩

/-- Claim C7, witness: the amended theorem applied to a single tap on
`node-root` while `"building"` is selected. -/
theorem C7_selection_witness :
    ((¬((({ node := none, timestamp := 0 } : LastTap)).node = some rootData.id
        ∧ (1000000 : Int) - (({ node := none, timestamp := 0 } : LastTap)).timestamp < 650))
      ∧ some rootData.id ≠ some "building")
    ∧ ((handle_node_tap (some rootData) none initial_elements (some "building")
          { node := none, timestamp := 0 } 1000000 "node-bbbbbb").2.1 = some rootData.id
      ∧ (handle_node_tap (some rootData) none initial_elements (some "building")
          { node := none, timestamp := 0 } 1000000 "node-bbbbbb").2.1 ≠ some "building"
      ∧ (handle_node_tap (some rootData) none initial_elements (some "building")
          { node := none, timestamp := 0 } 1000000 "node-bbbbbb").1 = initial_elements
      ∧ ∀ co : Bool,
          connect_nodes co (some rootData) initial_elements (some "building")
              = initial_elements
          ∨ ∃ ed, connect_nodes co (some rootData) initial_elements (some "building")
              = initial_elements ++ [ed]) :=
  ⟨⟨by decide, by decide⟩,
    C7_selection_amended initial_elements (some "building")
      { node := none, timestamp := 0 } rootData none 1000000 "node-bbbbbb"
      (by decide) (by decide)⟩

/-! ## Claim C9 -/

/-- Claim C9: at session start the selection store holds `"building"`,
which is not the id of any element of the initial store; the operations
that consume Selection are total on this dangling id — toggling collapse
adds `"building"` to the collapse set but hides nothing (no node has it as
an ancestor), retyping through it succeeds without touching the store for
every type key, relabeling through it changes nothing, and connection
taps at most append one edge. -/
theorem C9_dangling_initial_selection :
    initial_elements.map (fun e => e.data.id) = ["node-root"]
    ∧ "building" ∉ initial_elements.map (fun e => e.data.id)
    ∧ toggle_collapse [] (some "building") = ["building"]
    ∧ (∀ fuel, applyVisibilityF fuel initial_elements ["building"]
        = applyVisibilityF fuel initial_elements [])
    ∧ (∀ tk, (handle_context_apply tk (some "building") none initial_elements).isSome
        = true)
    ∧ handle_label_save "Lobby" (some "building") initial_elements = initial_elements
    ∧ (∀ (co : Bool) (d : Option ElemData),
        connect_nodes co d initial_elements (some "building") = initial_elements
        ∨ ∃ ed, connect_nodes co d initial_elements (some "building")
            = initial_elements ++ [ed]) := by
  refine ⟨by decide, by decide, by decide, ?_, ?_, by decide, ?_⟩
  · intro fuel
    have hc : collectDescendantsF fuel (buildChildrenMap initial_elements) "building"
        = some [] := by
      unfold collectDescendantsF
      rw [show lookupChildren (buildChildrenMap initial_elements) "building" = []
            from rfl]
      exact collectLoop_nil _ _ _
    have h1 : hiddenNodesF fuel (buildChildrenMap initial_elements) ["building"] []
        = some [] := by
      show (match collectDescendantsF fuel (buildChildrenMap initial_elements) "building" with
            | none => none
            | some h => hiddenNodesF fuel (buildChildrenMap initial_elements) [] ([] ++ h))
          = some []
      rw [hc]
      rfl
    unfold applyVisibilityF
    rw [h1]
    rfl
  · intro tk
    have hdef : handle_context_apply tk (some "building") none initial_elements
        = (if tk = "building" ∧ hasOtherBuilding initial_elements "building"
            then some initial_elements
            else mapOrFail
              (fun e => if e.data.id = "building" then
                Option.map (fun nt => retypeEl nt e) (typeMap tk) else some e)
              initial_elements) := rfl
    rw [hdef]
    by_cases hg : tk = "building" ∧ hasOtherBuilding initial_elements "building"
    · rw [if_pos hg]; rfl
    · rw [if_neg hg]
      rw [mapOrFail_skip "building" _ initial_elements (by decide)]
      rfl
  · intro co d
    cases co with
    | false => cases d <;> exact Or.inl rfl
    | true =>
      cases d with
      | none => exact Or.inl rfl
      | some dd =>
        rw [connect_nodes_eq]
        by_cases hcond : dd.id = "" ∨ some dd.id = some "building"
            ∨ pairConn initial_elements (some "building") dd.id = true
        · rw [if_pos hcond]
          exact Or.inl rfl
        · rw [if_neg hcond]
          exact Or.inr ⟨make_edgeO (some "building") dd.id, rfl⟩

/-! ## Claim C5: the single-building invariant

The inductive invariant: every element is either a node element (no
source/target, with an id of the shape the application generates) or an
edge element (an `edge-`-prefixed id, both endpoints present and no type
key), node ids are pairwise distinct, the selection and right-click stores
hold node-shaped ids, and at most one element carries type `building`. -/

/-- An id the application can place in the selection / right-click stores:
the initial `"building"` literal or a `node-`-prefixed id. -/
def nodeLike (s : String) : Prop :=
  s = "building" ∨ s.data.take 5 = nodePre

/-- A node element: no endpoints and a node-shaped id. -/
def NodeEl (e : Elem) : Prop :=
  e.data.source = none ∧ e.data.target = none ∧ nodeLike e.data.id

/-- An edge element: an `edge-`-prefixed id, both endpoints, no type. -/
def EdgeEl (e : Elem) : Prop :=
  e.data.type = none ∧ e.data.id.data.take 5 = edgePre
    ∧ e.data.source.isSome = true ∧ e.data.target.isSome = true

/-- The Boolean node test used to collect node ids. -/
def isNodeB (e : Elem) : Bool := e.data.source.isNone && e.data.target.isNone

/-- The ids of the node elements, in store order. -/
def nodeIds (l : List Elem) : List String :=
  (l.filter isNodeB).map (fun e => e.data.id)

/-- The number of elements whose `type` is `building`. -/
def buildingCount (l : List Elem) : Nat :=
  (l.filter (fun e => decide (e.data.type = some "building"))).length

theorem nodeLike_not_edge {s : String} (h : nodeLike s) :
    ¬ s.data.take 5 = edgePre := by
  rcases h with rfl | h
  · decide
  · rw [h]; decide

theorem make_edgeO_take5 (sel : Option String) (t : String) :
    (make_edgeO sel t).data.id.data.take 5 = edgePre := rfl

theorem NodeEl_isNodeB {e : Elem} (h : NodeEl e) : isNodeB e = true := by
  simp [isNodeB, h.1, h.2.1]

theorem node_of_matching {e : Elem} {target : String}
    (hcl : NodeEl e ∨ EdgeEl e) (hid : e.data.id = target)
    (hnl : nodeLike target) : NodeEl e := by
  rcases hcl with h | h
  · exact h
  · exact absurd (hid ▸ h.2.1) (nodeLike_not_edge hnl)

theorem nodeIds_cons (a : Elem) (l : List Elem) :
    nodeIds (a :: l)
      = if isNodeB a = true then a.data.id :: nodeIds l else nodeIds l := by
  simp only [nodeIds, List.filter_cons]
  split <;> simp

theorem nodeIds_append (l1 l2 : List Elem) :
    nodeIds (l1 ++ l2) = nodeIds l1 ++ nodeIds l2 := by
  simp [nodeIds, List.filter_append]

theorem mem_nodeIds {l : List Elem} {e : Elem} (he : e ∈ l)
    (hb : isNodeB e = true) : e.data.id ∈ nodeIds l :=
  List.mem_map_of_mem _ (List.mem_filter.mpr ⟨he, hb⟩)

theorem nodeIds_subset_ids {l : List Elem} {x : String}
    (h : x ∈ nodeIds l) : x ∈ l.map (fun e => e.data.id) := by
  obtain ⟨e, he, rfl⟩ := List.mem_map.mp h
  exact List.mem_map_of_mem _ (List.mem_of_mem_filter he)

theorem filter_length_mono (p q : Elem → Bool) :
    ∀ l : List Elem, (∀ e ∈ l, p e = true → q e = true) →
      (l.filter p).length ≤ (l.filter q).length := by
  intro l
  induction l with
  | nil => intro _; simp
  | cons a l ih =>
    intro h
    have ih' := ih (fun e he hp => h e (List.mem_cons_of_mem a he) hp)
    by_cases hp : p a = true
    · have hq := h a (List.mem_cons_self a l) hp
      simp only [List.filter_cons, if_pos hp, if_pos hq, List.length_cons]
      omega
    · simp only [List.filter_cons, if_neg hp]
      by_cases hq : q a = true
      · simp only [if_pos hq, List.length_cons]
        omega
      · simp only [if_neg hq]
        exact ih'

theorem length_filter_map (g : Elem → Elem) (p : Elem → Bool) :
    ∀ l : List Elem,
      ((l.map g).filter p).length = (l.filter (fun e => p (g e))).length := by
  intro l
  induction l with
  | nil => rfl
  | cons a l ih =>
    simp only [List.map_cons, List.filter_cons]
    by_cases hp : p (g a) = true
    · simp only [if_pos hp, List.length_cons, ih]
    · simp only [if_neg hp, ih]

theorem matched_le_one (target : String) (hnl : nodeLike target) :
    ∀ l : List Elem, (nodeIds l).Nodup →
      (∀ e ∈ l, NodeEl e ∨ EdgeEl e) →
      (l.filter (fun e => decide (e.data.id = target))).length ≤ 1 := by
  intro l
  induction l with
  | nil => intro _ _; simp
  | cons a l ih =>
    intro hnd hcl
    have hndl : (nodeIds l).Nodup := by
      rw [nodeIds_cons] at hnd
      split at hnd
      · exact hnd.of_cons
      · exact hnd
    by_cases ha : a.data.id = target
    · have hna : NodeEl a := node_of_matching (hcl a (List.mem_cons_self a l)) ha hnl
      have hnotin : target ∉ nodeIds l := by
        rw [nodeIds_cons, if_pos (NodeEl_isNodeB hna)] at hnd
        rw [← ha]
        exact (List.nodup_cons.mp hnd).1
      have hnone : ∀ e ∈ l, ¬(decide (e.data.id = target) = true) := by
        intro e he hdec
        have hide : e.data.id = target := of_decide_eq_true hdec
        have hne : NodeEl e :=
          node_of_matching (hcl e (List.mem_cons_of_mem a he)) hide hnl
        exact hnotin (hide ▸ mem_nodeIds he (NodeEl_isNodeB hne))
      have : l.filter (fun e => decide (e.data.id = target)) = [] :=
        List.filter_eq_nil_iff.mpr hnone
      simp [List.filter_cons, ha, this]
    · have hdA : ¬(decide (a.data.id = target) = true) := by
        simp only [decide_eq_true_eq]
        exact ha
      simp only [List.filter_cons, if_neg hdA]
      exact ih hndl (fun e he => hcl e (List.mem_cons_of_mem a he))

/-- The inductive session invariant carrying the single-building property. -/
structure AppInv (st : AppState) : Prop where
  count_le : buildingCount st.elements ≤ 1
  classify : ∀ e ∈ st.elements, NodeEl e ∨ EdgeEl e
  nodup : (nodeIds st.elements).Nodup
  sel_ok : ∃ s, st.selected = some s ∧ nodeLike s
  rc_ok : ∀ r, st.rightClick = some r → nodeLike r

theorem pyOr_some {a b : Option String} {t : String} (h : pyOr a b = some t) :
    a = some t ∨ b = some t := by
  unfold pyOr at h
  by_cases ha : pyTruthy a = true
  · rw [if_pos ha] at h; exact Or.inl h
  · rw [if_neg ha] at h
    by_cases hb : pyTruthy b = true
    · rw [if_pos hb] at h; exact Or.inr h
    · rw [if_neg hb] at h; cases h

/-- A function that changes neither endpoints nor ids leaves the node-id
list unchanged. -/
theorem nodeIds_map (g : Elem → Elem)
    (hg : ∀ e, (g e).data.id = e.data.id ∧ (g e).data.source = e.data.source
      ∧ (g e).data.target = e.data.target) :
    ∀ l : List Elem, nodeIds (l.map g) = nodeIds l := by
  intro l
  induction l with
  | nil => rfl
  | cons a l ih =>
    obtain ⟨hid, hs, ht⟩ := hg a
    have hb : isNodeB (g a) = isNodeB a := by simp [isNodeB, hs, ht]
    rw [List.map_cons, nodeIds_cons, nodeIds_cons, hb, hid, ih]

theorem mapOrFail_total (F : Elem → Elem) :
    ∀ l : List Elem, mapOrFail (fun e => some (F e)) l = some (l.map F) := by
  intro l
  induction l with
  | nil => rfl
  | cons a l ih => simp only [mapOrFail, ih, List.map_cons]

theorem mapOrFail_id_or_none (target : String) :
    ∀ l : List Elem,
      mapOrFail (fun e => if e.data.id = target then none else some e) l = none
      ∨ mapOrFail (fun e => if e.data.id = target then none else some e) l
          = some l := by
  intro l
  induction l with
  | nil => exact Or.inr rfl
  | cons a l ih =>
    by_cases ha : a.data.id = target
    · exact Or.inl (by simp only [mapOrFail, if_pos ha])
    · rcases ih with h | h
      · exact Or.inl (by simp only [mapOrFail, if_neg ha, h])
      · exact Or.inr (by simp only [mapOrFail, if_neg ha, h])

theorem typeMap_key {tk : String} {nt : NodeType} (h : typeMap tk = some nt) :
    nt.key = tk := by
  unfold typeMap at h
  have hp := List.find?_some h
  exact of_decide_eq_true hp

/-- The elementwise update applied by a successful retype. -/
def retypeUpd (nt : NodeType) (target : String) (e : Elem) : Elem :=
  if e.data.id = target then retypeEl nt e else e

/-- Case analysis of the `context-apply` callback result, as consumed by the
session (a raised error leaves the store unchanged). -/
theorem hca_spec (tk : String) (sel rc : Option String) (l : List Elem) :
    (handle_context_apply tk sel rc l).getD l = l
    ∨ ∃ nt target, typeMap tk = some nt ∧ pyOr rc sel = some target
        ∧ (handle_context_apply tk sel rc l).getD l = l.map (retypeUpd nt target)
        ∧ (tk = "building" → ¬ hasOtherBuilding l target) := by
  cases hor : pyOr rc sel with
  | none =>
    left
    have : handle_context_apply tk sel rc l = some l := by
      unfold handle_context_apply
      rw [hor]
    rw [this]
    rfl
  | some target =>
    have hdef : handle_context_apply tk sel rc l
        = (if tk = "building" ∧ hasOtherBuilding l target then some l
          else mapOrFail
            (fun e => if e.data.id = target then
              Option.map (fun nt => retypeEl nt e) (typeMap tk) else some e) l) := by
      unfold handle_context_apply
      rw [hor]
    by_cases hg : tk = "building" ∧ hasOtherBuilding l target
    · left
      rw [hdef, if_pos hg]
      rfl
    · rw [hdef, if_neg hg]
      cases htm : typeMap tk with
      | none =>
        left
        have hfn : (fun e : Elem => if e.data.id = target then
            Option.map (fun nt => retypeEl nt e) (none : Option NodeType) else some e)
            = (fun e : Elem => if e.data.id = target then none else some e) := by
          funext e
          split <;> rfl
        rw [hfn]
        rcases mapOrFail_id_or_none target l with h | h
        · rw [h]; rfl
        · rw [h]; rfl
      | some nt =>
        right
        refine ⟨nt, target, rfl, rfl, ?_, ?_⟩
        · have hfn : (fun e : Elem => if e.data.id = target then
              Option.map (fun nt' => retypeEl nt' e) (some nt) else some e)
              = (fun e : Elem => some (retypeUpd nt target e)) := by
            funext e
            unfold retypeUpd
            split <;> rfl
          rw [hfn, mapOrFail_total]
          rfl
        · intro hb hother
          exact hg ⟨hb, hother⟩

theorem connect_cases (co : Bool) (d : ElemData) (l : List Elem)
    (sel : Option String) :
    connect_nodes co (some d) l sel = l
    ∨ connect_nodes co (some d) l sel = l ++ [make_edgeO sel d.id] := by
  cases co with
  | false => exact Or.inl rfl
  | true =>
    rw [connect_nodes_eq]
    by_cases h : d.id = "" ∨ some d.id = sel ∨ pairConn l sel d.id = true
    · rw [if_pos h]; exact Or.inl rfl
    · rw [if_neg h]; exact Or.inr rfl

theorem nodeLike_of_isNodeData {l : List Elem} {d : ElemData}
    (hcl : ∀ e ∈ l, NodeEl e ∨ EdgeEl e) (hd : isNodeData l d) :
    nodeLike d.id := by
  obtain ⟨e, he, hde, hs, ht⟩ := hd
  rcases hcl e he with hne | hee
  · rw [← hde]
    exact hne.2.2
  · have := hee.2.2.1
    rw [hs] at this
    simp at this

theorem count_append_sensors (l : List Elem) (f lb : String)
    (par : Option String) (pos : Option (Int × Int)) :
    buildingCount (l ++ [makeNodeT f lb sensorsT par pos]) = buildingCount l := by
  simp [buildingCount, List.filter_append, makeNodeT, sensorsT]

theorem count_append_edge (l : List Elem) (sel : Option String) (t : String) :
    buildingCount (l ++ [make_edgeO sel t]) = buildingCount l := by
  simp [buildingCount, List.filter_append, make_edgeO, blankData]

theorem classify_append {l : List Elem} {e : Elem}
    (hcl : ∀ x ∈ l, NodeEl x ∨ EdgeEl x) (he : NodeEl e ∨ EdgeEl e) :
    ∀ x ∈ l ++ [e], NodeEl x ∨ EdgeEl x := by
  intro x hx
  rcases List.mem_append.mp hx with hx | hx
  · exact hcl x hx
  · rw [List.mem_singleton.mp hx]
    exact he

theorem NodeEl_makeNode (f lb : String) (nt : NodeType) (par : Option String)
    (pos : Option (Int × Int)) (h : nodeLike f) :
    NodeEl (makeNodeT f lb nt par pos) := ⟨rfl, rfl, h⟩

theorem EdgeEl_make_edgeO (s t : String) : EdgeEl (make_edgeO (some s) t) :=
  ⟨rfl, make_edgeO_take5 _ _, rfl, rfl⟩

theorem nodup_append_node {l : List Elem} (hnd : (nodeIds l).Nodup) {e : Elem}
    (hb : isNodeB e = true) (hfr : e.data.id ∉ l.map (fun x => x.data.id)) :
    (nodeIds (l ++ [e])).Nodup := by
  rw [nodeIds_append]
  have h1 : nodeIds [e] = [e.data.id] := by
    rw [nodeIds_cons, if_pos hb]
    rfl
  rw [h1]
  refine List.Nodup.append hnd (List.nodup_singleton _) ?_
  intro a ha hae
  rw [List.mem_singleton.mp hae] at ha
  exact hfr (nodeIds_subset_ids ha)

theorem nodeIds_append_edge {l : List Elem} {e : Elem} (hb : isNodeB e = false) :
    nodeIds (l ++ [e]) = nodeIds l := by
  rw [nodeIds_append, nodeIds_cons, if_neg (by simp [hb])]
  show nodeIds l ++ nodeIds [] = nodeIds l
  rw [show nodeIds [] = [] from rfl, List.append_nil]

theorem retypeUpd_preserve (nt : NodeType) (target : String) (e : Elem) :
    (retypeUpd nt target e).data.id = e.data.id
    ∧ (retypeUpd nt target e).data.source = e.data.source
    ∧ (retypeUpd nt target e).data.target = e.data.target := by
  unfold retypeUpd
  split <;> exact ⟨rfl, rfl, rfl⟩

theorem classify_retype {l : List Elem} (hcl : ∀ e ∈ l, NodeEl e ∨ EdgeEl e)
    (nt : NodeType) {target : String} (hnl : nodeLike target) :
    ∀ x ∈ l.map (retypeUpd nt target), NodeEl x ∨ EdgeEl x := by
  intro x hx
  obtain ⟨e, he, rfl⟩ := List.mem_map.mp hx
  rcases hcl e he with hne | hee
  · left
    unfold retypeUpd
    split
    · exact ⟨hne.1, hne.2.1, hne.2.2⟩
    · exact hne
  · unfold retypeUpd
    split
    · next ha => exact absurd (ha ▸ hee.2.1) (nodeLike_not_edge hnl)
    · exact Or.inr hee

theorem count_retype_building {l : List Elem} {target : String} (nt : NodeType)
    (hnd : (nodeIds l).Nodup) (hcl : ∀ e ∈ l, NodeEl e ∨ EdgeEl e)
    (hnl : nodeLike target)
    (hguard : ∀ e ∈ l, e.data.type = some "building" → e.data.id = target) :
    buildingCount (l.map (retypeUpd nt target)) ≤ 1 := by
  rw [buildingCount, length_filter_map]
  refine le_trans (filter_length_mono _ _ l ?_) (matched_le_one target hnl l hnd hcl)
  intro e he hp
  by_cases hm : e.data.id = target
  · simpa using hm
  · exfalso
    have hupd : retypeUpd nt target e = e := by
      unfold retypeUpd
      rw [if_neg hm]
    rw [hupd] at hp
    exact hm (hguard e he (of_decide_eq_true hp))

theorem count_retype_other {l : List Elem} {target tk : String} {nt : NodeType}
    (hcount : buildingCount l ≤ 1) (htm : typeMap tk = some nt)
    (htk : tk ≠ "building") :
    buildingCount (l.map (retypeUpd nt target)) ≤ 1 := by
  rw [buildingCount, length_filter_map]
  refine le_trans (filter_length_mono _ _ l ?_) hcount
  intro e _ hp
  by_cases hm : e.data.id = target
  · exfalso
    have hupd : retypeUpd nt target e = retypeEl nt e := by
      unfold retypeUpd
      rw [if_pos hm]
    rw [hupd] at hp
    have htype : (retypeEl nt e).data.type = some nt.key := rfl
    rw [htype] at hp
    have : nt.key = "building" := by
      have := of_decide_eq_true hp
      exact Option.some_inj.mp this
    exact htk (typeMap_key htm ▸ this)
  · have hupd : retypeUpd nt target e = e := by
      unfold retypeUpd
      rw [if_neg hm]
    rwa [hupd] at hp

/-- The elementwise update applied by a label save. -/
def relabelUpd (text : String) (sel : Option String) (e : Elem) : Elem :=
  if some e.data.id = sel then relabelEl text e else e

theorem relabelUpd_preserve (text : String) (sel : Option String) (e : Elem) :
    (relabelUpd text sel e).data.id = e.data.id
    ∧ (relabelUpd text sel e).data.source = e.data.source
    ∧ (relabelUpd text sel e).data.target = e.data.target
    ∧ (relabelUpd text sel e).data.type = e.data.type := by
  unfold relabelUpd
  split <;> exact ⟨rfl, rfl, rfl, rfl⟩

theorem handle_label_save_cases (text : String) (sel : Option String)
    (l : List Elem) :
    handle_label_save text sel l = l
    ∨ handle_label_save text sel l = l.map (relabelUpd text sel) := by
  unfold handle_label_save
  split
  · exact Or.inr rfl
  · exact Or.inl rfl

theorem classify_relabel {l : List Elem} (hcl : ∀ e ∈ l, NodeEl e ∨ EdgeEl e)
    (text : String) (sel : Option String) :
    ∀ x ∈ l.map (relabelUpd text sel), NodeEl x ∨ EdgeEl x := by
  intro x hx
  obtain ⟨e, he, rfl⟩ := List.mem_map.mp hx
  rcases hcl e he with hne | hee
  · left
    unfold relabelUpd
    split
    · exact ⟨hne.1, hne.2.1, hne.2.2⟩
    · exact hne
  · right
    unfold relabelUpd
    split
    · exact ⟨hee.1, hee.2.1, hee.2.2.1, hee.2.2.2⟩
    · exact hee

theorem count_relabel {l : List Elem} (hcount : buildingCount l ≤ 1)
    (text : String) (sel : Option String) :
    buildingCount (l.map (relabelUpd text sel)) ≤ 1 := by
  rw [buildingCount, length_filter_map]
  refine le_trans (filter_length_mono _ _ l ?_) hcount
  intro e _ hp
  rwa [(relabelUpd_preserve text sel e).2.2.2] at hp

/-- Every callback firing preserves the session invariant. -/
theorem step_preserves {s1 s2 : AppState} (hinv : AppInv s1) (hstep : Step s1 s2) :
    AppInv s2 := by
  cases hstep with
  | tap d pos now f hd hf =>
    have hnl : nodeLike d.id := nodeLike_of_isNodeData hinv.classify hd
    have hdef : handle_node_tap (some d) pos s1.elements s1.selected s1.lastTap now f
        = (if s1.lastTap.node = some d.id ∧ now - s1.lastTap.timestamp < 650 then
            (s1.elements ++ [makeNodeT f "New Node" sensorsT (some d.id)
                (pos.map (fun p => (p.1 + 60, p.2 + 40)))],
             some f, { node := some f, timestamp := 0 })
          else (s1.elements, some d.id, { node := some d.id, timestamp := now })) := rfl
    by_cases hc : s1.lastTap.node = some d.id ∧ now - s1.lastTap.timestamp < 650
    · have h1 : (handle_node_tap (some d) pos s1.elements s1.selected s1.lastTap now f).1
          = s1.elements ++ [makeNodeT f "New Node" sensorsT (some d.id)
              (pos.map (fun p => (p.1 + 60, p.2 + 40)))] := by
        rw [hdef, if_pos hc]
      have h2 : (handle_node_tap (some d) pos s1.elements s1.selected s1.lastTap now f).2.1
          = some f := by
        rw [hdef, if_pos hc]
      refine ⟨?_, ?_, ?_, ?_, ?_⟩
      · show buildingCount
          ((handle_node_tap (some d) pos s1.elements s1.selected s1.lastTap now f).1) ≤ 1
        rw [h1, count_append_sensors]
        exact hinv.count_le
      · show ∀ e ∈ (handle_node_tap (some d) pos s1.elements s1.selected s1.lastTap now f).1,
          NodeEl e ∨ EdgeEl e
        rw [h1]
        exact classify_append hinv.classify
          (Or.inl (NodeEl_makeNode _ _ _ _ _ (Or.inr hf.1)))
      · show (nodeIds
          ((handle_node_tap (some d) pos s1.elements s1.selected s1.lastTap now f).1)).Nodup
        rw [h1]
        exact nodup_append_node hinv.nodup rfl hf.2
      · exact ⟨f, h2, Or.inr hf.1⟩
      · exact hinv.rc_ok
    · have h1 : (handle_node_tap (some d) pos s1.elements s1.selected s1.lastTap now f).1
          = s1.elements := by
        rw [hdef, if_neg hc]
      have h2 : (handle_node_tap (some d) pos s1.elements s1.selected s1.lastTap now f).2.1
          = some d.id := by
        rw [hdef, if_neg hc]
      refine ⟨?_, ?_, ?_, ?_, ?_⟩
      · show buildingCount
          ((handle_node_tap (some d) pos s1.elements s1.selected s1.lastTap now f).1) ≤ 1
        rw [h1]
        exact hinv.count_le
      · show ∀ e ∈ (handle_node_tap (some d) pos s1.elements s1.selected s1.lastTap now f).1,
          NodeEl e ∨ EdgeEl e
        rw [h1]
        exact hinv.classify
      · show (nodeIds
          ((handle_node_tap (some d) pos s1.elements s1.selected s1.lastTap now f).1)).Nodup
        rw [h1]
        exact hinv.nodup
      · exact ⟨d.id, h2, hnl⟩
      · exact hinv.rc_ok
  | connectTap d hd =>
    obtain ⟨s, hsel, hsnl⟩ := hinv.sel_ok
    rcases connect_cases s1.connectOn d s1.elements s1.selected with hcc | hcc
    · refine ⟨?_, ?_, ?_, hinv.sel_ok, hinv.rc_ok⟩
      · show buildingCount (connect_nodes s1.connectOn (some d) s1.elements s1.selected) ≤ 1
        rw [hcc]
        exact hinv.count_le
      · show ∀ e ∈ connect_nodes s1.connectOn (some d) s1.elements s1.selected,
          NodeEl e ∨ EdgeEl e
        rw [hcc]
        exact hinv.classify
      · show (nodeIds (connect_nodes s1.connectOn (some d) s1.elements s1.selected)).Nodup
        rw [hcc]
        exact hinv.nodup
    · refine ⟨?_, ?_, ?_, hinv.sel_ok, hinv.rc_ok⟩
      · show buildingCount (connect_nodes s1.connectOn (some d) s1.elements s1.selected) ≤ 1
        rw [hcc, count_append_edge]
        exact hinv.count_le
      · show ∀ e ∈ connect_nodes s1.connectOn (some d) s1.elements s1.selected,
          NodeEl e ∨ EdgeEl e
        rw [hcc, hsel]
        exact classify_append hinv.classify (Or.inr (EdgeEl_make_edgeO s d.id))
      · show (nodeIds (connect_nodes s1.connectOn (some d) s1.elements s1.selected)).Nodup
        have hb : isNodeB (make_edgeO (some s) d.id) = false := rfl
        rw [hcc, hsel, nodeIds_append_edge hb]
        exact hinv.nodup
  | canvasDbl p f hf =>
    have h1 : handle_canvas_double_click (some p) s1.elements f
        = s1.elements ++ [makeNodeT f "New Node" sensorsT none (some p)] := rfl
    refine ⟨?_, ?_, ?_, hinv.sel_ok, hinv.rc_ok⟩
    · show buildingCount (handle_canvas_double_click (some p) s1.elements f) ≤ 1
      rw [h1, count_append_sensors]
      exact hinv.count_le
    · show ∀ e ∈ handle_canvas_double_click (some p) s1.elements f, NodeEl e ∨ EdgeEl e
      rw [h1]
      exact classify_append hinv.classify
        (Or.inl (NodeEl_makeNode _ _ _ _ _ (Or.inr hf.1)))
    · show (nodeIds (handle_canvas_double_click (some p) s1.elements f)).Nodup
      rw [h1]
      exact nodup_append_node hinv.nodup rfl hf.2
  | contextAction d hd =>
    have hnl : nodeLike d.id := nodeLike_of_isNodeData hinv.classify hd
    refine ⟨hinv.count_le, hinv.classify, hinv.nodup, ⟨d.id, rfl, hnl⟩, ?_⟩
    intro r hr
    have : d.id = r := Option.some_inj.mp hr
    exact this ▸ hnl
  | contextApply tk =>
    rcases hca_spec tk s1.selected s1.rightClick s1.elements with
      heq | ⟨nt, target, htm, hor, heq, hguard⟩
    · refine ⟨?_, ?_, ?_, hinv.sel_ok, hinv.rc_ok⟩
      · show buildingCount
          ((handle_context_apply tk s1.selected s1.rightClick s1.elements).getD s1.elements) ≤ 1
        rw [heq]
        exact hinv.count_le
      · show ∀ e ∈ (handle_context_apply tk s1.selected s1.rightClick s1.elements).getD
            s1.elements, NodeEl e ∨ EdgeEl e
        rw [heq]
        exact hinv.classify
      · show (nodeIds ((handle_context_apply tk s1.selected s1.rightClick
            s1.elements).getD s1.elements)).Nodup
        rw [heq]
        exact hinv.nodup
    · have hnl : nodeLike target := by
        rcases pyOr_some hor with hrc | hsl
        · exact hinv.rc_ok target hrc
        · obtain ⟨s, hseq, hsnl⟩ := hinv.sel_ok
          rw [hseq] at hsl
          exact Option.some_inj.mp hsl ▸ hsnl
      refine ⟨?_, ?_, ?_, hinv.sel_ok, hinv.rc_ok⟩
      · show buildingCount
          ((handle_context_apply tk s1.selected s1.rightClick s1.elements).getD s1.elements) ≤ 1
        rw [heq]
        by_cases htk : tk = "building"
        · have hguard2 : ∀ e ∈ s1.elements, e.data.type = some "building" →
              e.data.id = target := by
            intro e he htp
            by_contra hne
            exact (hguard htk) ⟨e, he, htp, hne⟩
          exact count_retype_building nt hinv.nodup hinv.classify hnl hguard2
        · exact count_retype_other hinv.count_le htm htk
      · show ∀ e ∈ (handle_context_apply tk s1.selected s1.rightClick s1.elements).getD
            s1.elements, NodeEl e ∨ EdgeEl e
        rw [heq]
        exact classify_retype hinv.classify nt hnl
      · show (nodeIds ((handle_context_apply tk s1.selected s1.rightClick
            s1.elements).getD s1.elements)).Nodup
        rw [heq, nodeIds_map (retypeUpd nt target) (retypeUpd_preserve nt target)]
        exact hinv.nodup
  | labelSave text =>
    rcases handle_label_save_cases text s1.selected s1.elements with heq | heq
    · refine ⟨?_, ?_, ?_, hinv.sel_ok, hinv.rc_ok⟩
      · show buildingCount (handle_label_save text s1.selected s1.elements) ≤ 1
        rw [heq]
        exact hinv.count_le
      · show ∀ e ∈ handle_label_save text s1.selected s1.elements, NodeEl e ∨ EdgeEl e
        rw [heq]
        exact hinv.classify
      · show (nodeIds (handle_label_save text s1.selected s1.elements)).Nodup
        rw [heq]
        exact hinv.nodup
    · refine ⟨?_, ?_, ?_, hinv.sel_ok, hinv.rc_ok⟩
      · show buildingCount (handle_label_save text s1.selected s1.elements) ≤ 1
        rw [heq]
        exact count_relabel hinv.count_le text s1.selected
      · show ∀ e ∈ handle_label_save text s1.selected s1.elements, NodeEl e ∨ EdgeEl e
        rw [heq]
        exact classify_relabel hinv.classify text s1.selected
      · show (nodeIds (handle_label_save text s1.selected s1.elements)).Nodup
        rw [heq, nodeIds_map (relabelUpd text s1.selected)
          (fun e => ⟨(relabelUpd_preserve text s1.selected e).1,
            (relabelUpd_preserve text s1.selected e).2.1,
            (relabelUpd_preserve text s1.selected e).2.2.1⟩)]
        exact hinv.nodup
  | collapseToggle =>
    exact ⟨hinv.count_le, hinv.classify, hinv.nodup, hinv.sel_ok, hinv.rc_ok⟩
  | connectToggle b =>
    exact ⟨hinv.count_le, hinv.classify, hinv.nodup, hinv.sel_ok, hinv.rc_ok⟩
  | showTypeDialog =>
    refine ⟨hinv.count_le, hinv.classify, hinv.nodup, hinv.sel_ok, ?_⟩
    intro r hr
    obtain ⟨s, hseq, hsnl⟩ := hinv.sel_ok
    rw [hseq] at hr
    exact Option.some_inj.mp hr ▸ hsnl

/-- The initial session satisfies the invariant. -/
theorem init_inv : AppInv initState := by
  refine ⟨by decide, ?_, by decide, ⟨"building", rfl, Or.inl rfl⟩, ?_⟩
  · intro e he
    rw [show initState.elements = initial_elements from rfl] at he
    rw [List.mem_singleton.mp he]
    exact Or.inl ⟨rfl, rfl, Or.inr (by decide)⟩
  · intro r hr
    cases hr

/-- Every reachable session state satisfies the invariant. -/
theorem reach_inv {st : AppState} (h : Reach st) : AppInv st := by
  induction h with
  | refl => exact init_inv
  | tail _ hstep ih => exact step_preserves ih hstep

/-- Claim C5: in every store reachable from the initial store through the
session's callbacks, at most one element carries type `building` — node
creation only ever produces `sensors` nodes, and a retype to `building`
while a different building element exists is rejected by the guard. -/
theorem C5_building_uniqueness (st : AppState) (h : Reach st) :
    buildingCount st.elements ≤ 1 :=
  (reach_inv h).count_le

/-- Claim C5, witness: the invariant theorem applied to the initial state. -/
theorem C5_building_uniqueness_witness :
    Reach initState ∧ buildingCount initState.elements ≤ 1 :=
  ⟨Relation.ReflTransGen.refl,
    C5_building_uniqueness initState Relation.ReflTransGen.refl⟩

end BSG
